import Mathlib

/-!
Homework bot: the schedule store

A shallow embedding of `storage/mongo/mongo.go`.

The `users` collection is a list of `User` documents in natural (insertion)
order.  The driver calls the Go code makes are modelled by three primitives:
`findOne` (first document satisfying the filter), `updateOne` (rewrite the
first document satisfying the filter, report the matched count) and
`upsertOne` (the same with `SetUpsert(true)`).  Every store method takes the
collection as an argument and returns its result together with the
collection afterwards.  Wall-clock readings (`time.Now()`) are arguments.

The server's regular-expression engine is not part of the repository: the
methods that send a `$regex` take it as the parameter `rx`, which compiles a
pattern (under option `i`) to a predicate on subject names, or rejects it.
-/

namespace Mongo

/-! ## Data model (`mongo.go`, lines 25-54) -/

/-- One homework photo with its metadata (`type Homework`). `UploadedAt` is
kept in Unix seconds. -/
structure Homework where
  Photo : List UInt8
  UploadedAt : Int
  ID : String
  UploadedBy : String
deriving DecidableEq, Repr

/-- A subject of a day and the homework submitted for it (`type Subject`). -/
structure Subject where
  SubjectName : String
  Homeworks : List Homework
deriving DecidableEq, Repr

/-- One day of the weekly schedule (`type DaySchedule`). -/
structure DaySchedule where
  DayName : String
  Subjects : List Subject
deriving DecidableEq, Repr

/-- A document of the `users` collection (`type User`).  `UserContacts` is
the stored value of `user_contacts`: `none` is BSON null, which is what the
driver writes for a nil Go slice; `some l` is an array, an absent field
counting as the empty array (both decode to a slice without elements, and
`$addToSet` treats them alike). -/
structure User where
  UserID : String
  Username : String
  Schedule : List DaySchedule
  CreatedAt : Int
  UserContacts : Option (List String)
  IsParent : Bool
deriving DecidableEq, Repr

/-- The `users` collection. -/
abbrev Store := List User

/-- The failures the store methods report, one constructor per `fmt.Errorf`
site of `mongo.go` (a driver error wrapped by the method is `driver`). -/
inductive Err where
  | driver
  | noMatchingSubject
  | noUserFound
  | homeworkNotFound
  | subjectNotFound
  | dayNotFound
  | studentNotFound
  | failedToGetStudent
deriving DecidableEq, Repr

/-- A compiled `$regex` with `$options: "i"`: `rx pattern` is `none` when the
server rejects the pattern, otherwise the predicate "the name matches". -/
abbrev RegexI := String → Option (String → Bool)

/-- The zero `time.Time` (January 1, year 1, UTC) in Unix seconds: what an
absent `created_at` decodes to. -/
def zeroTime : Int := -62135596800

/-! ## Driver primitives -/

/-- `collection.FindOne(ctx, filter).Decode(&u)`: the first document that
satisfies the filter, `none` for `mongo.ErrNoDocuments`. -/
def findOne (filter : User → Bool) : Store → Option User
  | [] => none
  | u :: rest => if filter u then some u else findOne filter rest

/-- `collection.UpdateOne(ctx, filter, update)`: the update is applied to the
first document that satisfies the filter; the second component is
`result.MatchedCount`. -/
def updateOne (filter : User → Bool) (update : User → User) : Store → Store × Nat
  | [] => ([], 0)
  | u :: rest =>
    if filter u then (update u :: rest, 1)
    else ((updateOne filter update rest).1.cons u, (updateOne filter update rest).2)

/-- `UpdateOne` with `options.Update().SetUpsert(true)`: when no document
satisfies the filter, `fresh` (the document built from the filter's equality
fields and the update) is inserted. -/
def upsertOne (filter : User → Bool) (update : User → User) (fresh : User) (s : Store) : Store :=
  if (updateOne filter update s).2 = 0 then s ++ [fresh] else (updateOne filter update s).1

/-- The filter `bson.M{"user_id": userID}`. -/
def byUserID (userID : String) (u : User) : Bool := decide (u.UserID = userID)

/-- The filter `bson.M{"username": username}`. -/
def byUsername (username : String) (u : User) : Bool := decide (u.Username = username)

/-! ## `strings` helpers -/

/-- Go's `strings.HasPrefix`. -/
def HasPrefix (s pre : String) : Bool := pre.data.isPrefixOf s.data

/-- Go's `strings.TrimPrefix`: `s` without the leading `pre`, or `s` itself
when it does not start with `pre`. -/
def TrimPrefix (s pre : String) : String :=
  if HasPrefix s pre then String.mk (s.data.drop pre.data.length) else s

/-! ## Schedule initialisation and user creation (`mongo.go`, lines 90-227) -/

/-- A subject with no homework, as every entry of the template is written. -/
def emptySubject (name : String) : Subject := { SubjectName := name, Homeworks := [] }

/-- The literal `schedules` of `InitializeSchedule` (Tuesday is commented out
in the source). -/
def schedules : List DaySchedule :=
  [ { DayName := "Monday",
      Subjects := ["Русский", "История", "Геометрия", "Английский", "ИЗО",
        "Литература"].map emptySubject },
    { DayName := "Wednesday",
      Subjects := ["Физика", "Информатика", "Физкультура", "Алгебра", "Английский",
        "Общество"].map emptySubject },
    { DayName := "Thursday",
      Subjects := ["География", "Алгебра", "Биология", "Вероятность и статистика",
        "История", "Русский", "Литература", "Россия мои горизонты"].map emptySubject },
    { DayName := "Friday",
      Subjects := ["Труд", "Физкультура", "Алгебра", "Геометрия",
        "Английский"].map emptySubject },
    { DayName := "Saturday",
      Subjects := ["Физика", "Алгебра", "Русский", "Английский", "Русский",
        "География", "Музыка"].map emptySubject } ]

/-- The update `$set: {schedule: schedules}`. -/
def setSchedule (u : User) : User := { u with Schedule := schedules }

/-- The document an upsert of `InitializeSchedule` inserts: `user_id` from
the filter, `schedule` from the update, every other field absent. -/
def upsertedUser (userID : String) : User :=
  { UserID := userID, Username := "", Schedule := schedules, CreatedAt := zeroTime,
    UserContacts := some [], IsParent := false }

/-- `InitializeSchedule` when none of its driver calls fails: nothing is
written when the user is found with a non-empty schedule; otherwise the
template is upserted.  `InitializeScheduleWith` below has the paths taken
when a call fails. -/
def InitializeSchedule (s : Store) (userID : String) : Option Err × Store :=
  match findOne (byUserID userID) s with
  | some existingUser =>
    if existingUser.Schedule.length > 0 then (none, s)
    else (none, upsertOne (byUserID userID) setSchedule (upsertedUser userID) s)
  | none => (none, upsertOne (byUserID userID) setSchedule (upsertedUser userID) s)

/-- `CreateUser` when none of its driver calls fails, `now` being the reading
of `time.Now()`.  The inserted `User` literal sets no `UserContacts`: the
slice is nil and is stored as null. -/
def CreateUser (now : Int) (s : Store) (userID username : String) : Option Err × Store :=
  match findOne (byUserID userID) s with
  | some existingUser =>
    if existingUser.Username ≠ username then
      (none, (updateOne (byUserID userID) (fun u => { u with Username := username }) s).1)
    else (none, s)
  | none =>
    (none, s ++ [{ UserID := userID, Username := username, CreatedAt := now, Schedule := [],
                   UserContacts := none, IsParent := false }])

/-- `GetUser`. -/
def GetUser (s : Store) (userID : String) : Except Err User :=
  match findOne (byUserID userID) s with
  | some user => .ok user
  | none => .error .driver

/-! ## Saving and fetching homework (`mongo.go`, lines 261-349) -/

/-- The identifier `fmt.Sprintf("%s-%s-%s-%d", userID, dayName, subjectName, unix)`. -/
def homeworkID (userID dayName subjectName : String) (unix : Int) : String :=
  userID ++ "-" ++ dayName ++ "-" ++ subjectName ++ "-" ++ toString unix

/-- The `$elemMatch` body of the `SaveHomework` filter: the day is named
`dayName` and one of its subjects has a name the pattern matches. -/
def dayMatches (p : String → Bool) (dayName : String) (d : DaySchedule) : Bool :=
  decide (d.DayName = dayName) && d.Subjects.any (fun sj => p sj.SubjectName)

/-- The filter of `SaveHomework`. -/
def saveFilter (p : String → Bool) (userID dayName : String) (u : User) : Bool :=
  decide (u.UserID = userID) && u.Schedule.any (dayMatches p dayName)

/-- The `$[subject]` part of the update of `SaveHomework`: a subject whose
name the pattern matches gets the homework pushed at the end of its array. -/
def pushSubject (p : String → Bool) (homework : Homework) (sj : Subject) : Subject :=
  if p sj.SubjectName = true then { sj with Homeworks := sj.Homeworks ++ [homework] } else sj

/-- The `$[day]` part of the update of `SaveHomework`: in a day named
`dayName` every subject is visited. -/
def pushDay (p : String → Bool) (dayName : String) (homework : Homework) (d : DaySchedule) :
    DaySchedule :=
  if d.DayName = dayName then { d with Subjects := d.Subjects.map (pushSubject p homework) }
  else d

/-- The update of `SaveHomework`:
`$push: {"schedule.$[day].subjects.$[subject].homeworks": homework}` with the
array filters `day.day_name = dayName` and `subject.subject_name` matching
the pattern.  A filtered positional operator addresses every array element
that satisfies its filter. -/
def pushHomework (p : String → Bool) (dayName : String) (homework : Homework) (u : User) : User :=
  { u with Schedule := u.Schedule.map (pushDay p dayName homework) }

/-- `SaveHomework`; `now` is the `time.Now()` the identifier is built from
(its `Unix()` seconds), `uploadedAt` the one stored in the document. -/
def SaveHomework (rx : RegexI) (now uploadedAt : Int) (s : Store)
    (userID dayName subjectName : String) (photoData : List UInt8) :
    Except Err String × Store :=
  let homework : Homework :=
    { Photo := photoData, UploadedAt := uploadedAt,
      ID := homeworkID userID dayName subjectName now, UploadedBy := userID }
  match rx subjectName with
  | none => (.error .driver, s)
  | some p =>
    let result := updateOne (saveFilter p userID dayName) (pushHomework p dayName homework) s
    if result.2 = 0 then (.error .noMatchingSubject, s)
    else (.ok homework.ID, result.1)

/-- The innermost loop of `GetHomework`: the first homework with the given
identifier. -/
def findHomework (id : String) : List Homework → Except Err Homework
  | [] => .error .homeworkNotFound
  | homework :: rest => if homework.ID = id then .ok homework else findHomework id rest

/-- The middle loop of `GetHomework`: the first subject named exactly
`subjectName` decides. -/
def findSubject (subjectName id : String) : List Subject → Except Err Homework
  | [] => .error .subjectNotFound
  | subject :: rest =>
    if subject.SubjectName = subjectName then findHomework id subject.Homeworks
    else findSubject subjectName id rest

/-- The outer loop of `GetHomework`: the first day named `dayName` decides. -/
def findDay (dayName subjectName id : String) : List DaySchedule → Except Err Homework
  | [] => .error .dayNotFound
  | schedule :: rest =>
    if schedule.DayName = dayName then findSubject subjectName id schedule.Subjects
    else findDay dayName subjectName id rest

/-- The filter of `GetHomework`:
`user_id = userID` and `schedule` has an element with `day_name = dayName`. -/
def dayFilter (userID dayName : String) (u : User) : Bool :=
  decide (u.UserID = userID) && u.Schedule.any (fun d => decide (d.DayName = dayName))

/-- `GetHomework`. -/
def GetHomework (s : Store) (userID dayName subjectName id : String) : Except Err Homework :=
  match findOne (dayFilter userID dayName) s with
  | none => .error .noUserFound
  | some user => findDay dayName subjectName id user.Schedule

/-! ## The contact list (`mongo.go`, lines 399-437) -/

/-- The handle as `AddStudentContact` stores it: a leading `@` is prepended
unless there is one already. -/
def canonicalHandle (studentUsername : String) : String :=
  if HasPrefix studentUsername "@" = false then "@" ++ studentUsername else studentUsername

/-- The operator `$addToSet`: the value is appended unless the array holds it. -/
def addToSet (x : String) (xs : List String) : List String :=
  if x ∈ xs then xs else xs ++ [x]

/-- The update of `AddStudentContact`:
`$addToSet: {user_contacts: handle}, $set: {is_parent: true}`, on a record
whose `user_contacts` is an array. -/
def addContact (handle : String) (u : User) : User :=
  { u with UserContacts := u.UserContacts.map (addToSet handle), IsParent := true }

/-- `AddStudentContact`.  The `UpdateOne` matches the first record of the
parent (`MatchedCount == 0` when there is none); the server applies
`$addToSet` to arrays only, so on a record whose `user_contacts` is null the
call fails, nothing is written and "failed to add student contact" is
returned. -/
def AddStudentContact (s : Store) (parentUserID studentUsername : String) : Option Err × Store :=
  match findOne (byUsername (TrimPrefix (canonicalHandle studentUsername) "@")) s with
  | none => (some .studentNotFound, s)
  | some _ =>
    match findOne (byUserID parentUserID) s with
    | none => (some .noUserFound, s)
    | some parent =>
      match parent.UserContacts with
      | none => (some .driver, s)
      | some _ =>
        (none, (updateOne (byUserID parentUserID)
          (addContact (canonicalHandle studentUsername)) s).1)

/-! ## Homework status (`mongo.go`, lines 439-469) -/

/-- A Go `map[string][]Homework`, as the list of its entries; the order of
the entries carries no meaning. -/
abbrev HomeworkMap := List (String × List Homework)

/-- The value `m[k]` with its presence flag. -/
def HomeworkMap.get? (m : HomeworkMap) (k : String) : Option (List Homework) :=
  match m with
  | [] => none
  | (k', v) :: rest => if k' = k then some v else HomeworkMap.get? rest k

/-- The assignment `m[k] = v`: the entry of `k` is replaced, or added. -/
def HomeworkMap.set (m : HomeworkMap) (k : String) (v : List Homework) : HomeworkMap :=
  match m with
  | [] => [(k, v)]
  | (k', v') :: rest => if k' = k then (k, v) :: rest else (k', v') :: HomeworkMap.set rest k v

/-- What `GetHomeworkStatus` returns next to its error: `completedSubjects`,
`incompleteSubjects` and `homeworkMap`. -/
structure Status where
  completed : List String
  incomplete : List String
  homeworkMap : HomeworkMap
deriving DecidableEq, Repr

/-- The three empty collections the loops of `GetHomeworkStatus` start from. -/
def Status.empty : Status := { completed := [], incomplete := [], homeworkMap := [] }

/-- The inner loop of `GetHomeworkStatus` over the subjects of the day. -/
def statusSubjects : List Subject → Status → Status
  | [], acc => acc
  | subject :: rest, acc =>
    if subject.Homeworks.length > 0 then
      statusSubjects rest
        { acc with completed := acc.completed ++ [subject.SubjectName],
                   homeworkMap := acc.homeworkMap.set subject.SubjectName subject.Homeworks }
    else
      statusSubjects rest { acc with incomplete := acc.incomplete ++ [subject.SubjectName] }

/-- The outer loop of `GetHomeworkStatus`: the first day named `dayName` is
processed, then the loop breaks. -/
def statusDays (dayName : String) : List DaySchedule → Status
  | [] => Status.empty
  | schedule :: rest =>
    if schedule.DayName = dayName then statusSubjects schedule.Subjects Status.empty
    else statusDays dayName rest

/-- `GetHomeworkStatus`. -/
def GetHomeworkStatus (s : Store) (studentUsername dayName : String) : Except Err Status :=
  match findOne (byUsername (TrimPrefix studentUsername "@")) s with
  | none => .error .failedToGetStudent
  | some student => .ok (statusDays dayName student.Schedule)

/-! ## Erasing a day (`mongo.go`, lines 471-501) -/

/-- The `$[]` part of the update of `EraseHomeworkForOldDay`: the homework
array of a subject is set to the empty array. -/
def clearSubject (sj : Subject) : Subject := { sj with Homeworks := [] }

/-- The `$[day]` part of the update of `EraseHomeworkForOldDay`: in a day
named `dayName` every subject is cleared. -/
def clearDay (dayName : String) (d : DaySchedule) : DaySchedule :=
  if d.DayName = dayName then { d with Subjects := d.Subjects.map clearSubject } else d

/-- The update of `EraseHomeworkForOldDay`:
`$set: {"schedule.$[day].subjects.$[].homeworks": []}` with the array filter
`day.day_name = dayName`. -/
def eraseDay (dayName : String) (u : User) : User :=
  { u with Schedule := u.Schedule.map (clearDay dayName) }

/-- `EraseHomeworkForOldDay`: a matched count of zero is only logged. -/
def EraseHomeworkForOldDay (s : Store) (userID dayName : String) : Option Err × Store :=
  (none, (updateOne (dayFilter userID dayName) (eraseDay dayName) s).1)

/-! ## A regular-expression engine for literal patterns -/

/-- Simple case folding of the Latin and Cyrillic capital letters. -/
def foldCase (c : Char) : Char :=
  if 'A' ≤ c ∧ c ≤ 'Z' then Char.ofNat (c.toNat + 32)
  else if 'А' ≤ c ∧ c ≤ 'Я' then Char.ofNat (c.toNat + 32)
  else if 'Ѐ' ≤ c ∧ c ≤ 'Џ' then Char.ofNat (c.toNat + 80)
  else c

/-- The characters with a special meaning in a regular expression. -/
def isMetaChar (c : Char) : Bool :=
  c ∈ ['\\', '^', '$', '.', '|', '?', '*', '+', '(', ')', '[', ']', '{', '}']

/-- Whether `pat` occurs in `txt` as a contiguous block. -/
def occursIn (pat : List Char) : List Char → Bool
  | [] => pat.isEmpty
  | c :: txt => pat.isPrefixOf (c :: txt) || occursIn pat txt

/-- The engine on patterns without metacharacters, where an unanchored
regular expression under option `i` is a case-insensitive substring search.
Patterns with a metacharacter are outside this fragment and are rejected. -/
def literalRegexI : RegexI := fun pattern =>
  if pattern.data.any isMetaChar then none
  else some (fun name => occursIn (pattern.data.map foldCase) (name.data.map foldCase))

/-! ## Wall-clock time (`mongo.go`, lines 18-23, 503-539, 632-650)

An instant is an `Int`, the nanoseconds elapsed on the local wall clock since
1970-01-01 00:00:00 local time; the zone is taken to have a fixed offset, so
every calendar day lasts 24 hours.  Zones with clock changes follow further
down. -/

/-- `time.Second` in nanoseconds. -/
def Second : Int := 1000000000

/-- `time.Hour` in nanoseconds. -/
def Hour : Int := 3600000000000

/-- The duration `24 * time.Hour`, the length of a calendar day. -/
def Day : Int := 86400000000000

/-- `summaryTime`, the hour of the daily summary. -/
def summaryTime : Int := 21

/-- `time.Date(t.Year(), t.Month(), t.Day(), 0, 0, 0, 0, t.Location())`: the
first instant of the calendar day of `t`. -/
def startOfDay (t : Int) : Int := t / Day * Day

/-- `t.Weekday()`, Sunday being 0: 1970-01-01 was a Thursday. -/
def Weekday (t : Int) : Nat := ((t / Day + 4) % 7).toNat

/-- The English weekday names of `time.Weekday.String()`. -/
def weekdayNames : List String :=
  ["Sunday", "Monday", "Tuesday", "Wednesday", "Thursday", "Friday", "Saturday"]

/-- `time.Weekday.String()` on a weekday number. -/
def WeekdayString (w : Nat) : String := weekdayNames.getD w ""

/-- `t.AddDate(0, 0, days)`: the same wall-clock time `days` calendar days later. -/
def AddDate (t : Int) (days : Int) : Int := t + days * Day

/-- `t.Unix()`: whole seconds, rounded down. -/
def Unix (t : Int) : Int := t / Second

/-- The fire time one pass of the loop of `StartDailySummaries` computes from
its reading `now`: today at `summaryTime` o'clock, moved by 24 hours when
`now.After(next)`. -/
def nextSummary (now : Int) : Int :=
  if now > startOfDay now + summaryTime * Hour then startOfDay now + summaryTime * Hour + 24 * Hour
  else startOfDay now + summaryTime * Hour

/-- The weekday name one pass of the loop of `StartEraseAtMidnight` passes to
`EraseHomeworkForOldDay`: `now.AddDate(0, 0, -5).Weekday().String()`. -/
def oldDay (now : Int) : String := WeekdayString (Weekday (AddDate now (-5)))

/-- The instant the loop of `StartEraseAtMidnight` sleeps until:
`time.Date(now.Year(), now.Month(), now.Day()+1, 0, 0, 0, 0, now.Location())`. -/
def nextMidnight (now : Int) : Int := startOfDay now + Day

/-! ## Time in a zone with clock changes

Here an instant is an `Int` of nanoseconds since 1970-01-01 00:00:00 UTC, as
`time.Now()` returns it, and the zone says how it reads on the local clock.
`Add` moves the instant; `AddDate` and `Date` work on the reading. -/

/-- A `time.Location`: the offset from UTC, in nanoseconds, in force at each
instant. -/
abbrev Zone := Int → Int

/-- A `time.FixedZone`: the same offset at every instant, no clock change. -/
def fixedZone (offset : Int) : Zone := fun _ => offset

/-- The reading of the local clock at the instant `t`, from which `Date`,
`Clock` and `Weekday` are taken. -/
def wallClock (zone : Zone) (t : Int) : Int := t + zone t

/-- The instant `time.Date` returns for the wall-clock reading `w`.  Go looks
up the offset at `w` taken as an instant; when it is not zero it takes the
offset in force at `w` less that offset (the first offset itself when this
instant lies in the same period) and subtracts it from `w`.  A reading the
local clock shows is given an instant at which it shows; a reading skipped
by a clock change comes back moved by the size of the change. -/
def dateIn (zone : Zone) (w : Int) : Int :=
  if zone w = 0 then w else w - zone (w - zone w)

/-- `t.AddDate(0, 0, days)`, which is
`Date(year, month, day+days, hour, min, sec, nsec, t.Location())` on the
reading of `t`. -/
def AddDateIn (zone : Zone) (t : Int) (days : Int) : Int :=
  dateIn zone (wallClock zone t + days * Day)

/-- The weekday name one pass of the loop of `StartEraseAtMidnight` passes to
`EraseHomeworkForOldDay` at the instant `now`:
`now.AddDate(0, 0, -5).Weekday().String()`. -/
def oldDayIn (zone : Zone) (now : Int) : String :=
  WeekdayString (Weekday (wallClock zone (AddDateIn zone now (-5))))

/-! ## Store calls that may fail (`mongo.go`, lines 90-227) -/

/-- Which driver calls of one store method return an error: `find` is a
`FindOne` failing with an error other than `mongo.ErrNoDocuments`, `update`
an `UpdateOne`, `insert` an `InsertOne`.  A failing call writes nothing. -/
structure Faults where
  find : Bool
  update : Bool
  insert : Bool
deriving DecidableEq, Repr

/-- No driver call fails. -/
def noFaults : Faults := { find := false, update := false, insert := false }

/-- `CreateUser` with its three error returns: "failed to update username",
"failed to create user" and "error checking for existing user". -/
def CreateUserWith (faults : Faults) (now : Int) (s : Store) (userID username : String) :
    Option Err × Store :=
  if faults.find = true then (some Err.driver, s)
  else
    match findOne (byUserID userID) s with
    | some existingUser =>
      if existingUser.Username ≠ username then
        if faults.update = true then (some Err.driver, s)
        else (none, (updateOne (byUserID userID) (fun u => { u with Username := username }) s).1)
      else (none, s)
    | none =>
      if faults.insert = true then (some Err.driver, s)
      else
        (none, s ++ [{ UserID := userID, Username := username, CreatedAt := now, Schedule := [],
                       UserContacts := none, IsParent := false }])

/-- `InitializeSchedule` with its error return "failed to initialize
schedule for user": a failed `FindOne` is treated like a user without a
schedule, a failed `UpdateOne` is returned. -/
def InitializeScheduleWith (faults : Faults) (s : Store) (userID : String) : Option Err × Store :=
  match (if faults.find = true then none else findOne (byUserID userID) s) with
  | some existingUser =>
    if existingUser.Schedule.length > 0 then (none, s)
    else if faults.update = true then (some Err.driver, s)
    else (none, upsertOne (byUserID userID) setSchedule (upsertedUser userID) s)
  | none =>
    if faults.update = true then (some Err.driver, s)
    else (none, upsertOne (byUserID userID) setSchedule (upsertedUser userID) s)

/-! ## Reachable stores -/

/-- The stores the store methods can produce from the empty collection, by
any sequence of `CreateUser`, `InitializeSchedule`, `SaveHomework`,
`AddStudentContact` and `EraseHomeworkForOldDay` calls with any arguments. -/
inductive Reachable (rx : RegexI) : Store → Prop where
  | empty : Reachable rx []
  | createUser (now : Int) (s : Store) (userID username : String) :
      Reachable rx s → Reachable rx (CreateUser now s userID username).2
  | initializeSchedule (s : Store) (userID : String) :
      Reachable rx s → Reachable rx (InitializeSchedule s userID).2
  | saveHomework (now uploadedAt : Int) (s : Store) (userID dayName subjectName : String)
      (photoData : List UInt8) :
      Reachable rx s →
        Reachable rx (SaveHomework rx now uploadedAt s userID dayName subjectName photoData).2
  | addStudentContact (s : Store) (parentUserID studentUsername : String) :
      Reachable rx s → Reachable rx (AddStudentContact s parentUserID studentUsername).2
  | eraseHomeworkForOldDay (s : Store) (userID dayName : String) :
      Reachable rx s → Reachable rx (EraseHomeworkForOldDay s userID dayName).2

/-- Subjects of one Day that bear the same name hold the same Submissions. -/
def HomonymsAgree (d : DaySchedule) : Prop :=
  ∀ sj ∈ d.Subjects, ∀ sj' ∈ d.Subjects,
    sj.SubjectName = sj'.SubjectName → sj.Homeworks = sj'.Homeworks

end Mongo

/-!
Homework bot: the message handler

A shallow embedding of `handlers/handlers.go`.  The handler's fields are the
state; one call takes the state and the message and returns the state
afterwards together with what the call did: the replies it sent, in order,
and the `SaveHomework` call it made.  What the call reads from outside (the
clock, the chat transport, the library functions) is gathered in `Env`.
-/

namespace Handlers

open Mongo

/-- The fields of `tgbotapi.Message` the bot reads.  `Photo` lists the file
identifiers of the photo sizes, the empty list standing for `nil`;
`IsCommand` is the value of the library method of that name. -/
structure Message where
  FromID : Int
  UserName : String
  ChatID : Int
  Text : String
  IsCommand : Bool
  Photo : List String
  Caption : String
  MediaGroupID : String
deriving DecidableEq, Repr

/-- The mutable fields of `type Handler`: the store behind `db`, the caption
cache `mediaGroups` (a Go `map[string]string`, as the list of its entries)
and `lastCleanup`. -/
structure Handler where
  db : Store
  mediaGroups : List (String × String)
  lastCleanup : Int
deriving DecidableEq, Repr

/-- `NewHandler`, called at the instant `now`. -/
def NewHandler (now : Int) (db : Store) : Handler :=
  { db := db, mediaGroups := [], lastCleanup := now }

/-- The map read `m[k]`: the zero value `""` when `k` has no entry. -/
def lookup (m : List (String × String)) (k : String) : String :=
  match m with
  | [] => ""
  | (k', v) :: rest => if k' = k then v else lookup rest k

/-- The map assignment `m[k] = v`. -/
def assign (m : List (String × String)) (k v : String) : List (String × String) :=
  match m with
  | [] => [(k, v)]
  | (k', v') :: rest => if k' = k then (k, v) :: rest else (k', v') :: assign rest k v

/-- What one handler call reads from outside the handler: the regular
expression engine of the store, `strings.Title`, the wall clock (`now`, with
the zone's offset from UTC; the readings of one call are taken at one
instant), the driver failures of user creation and schedule initialisation,
and the chat transport (`bot.GetFile`, giving the link of a file, and
`downloadFile`, giving its bytes; `none` is an error). -/
structure Env where
  rx : RegexI
  title : String → String
  now : Int
  zoneOffset : Int
  createFaults : Faults
  initFaults : Faults
  getFile : String → Option String
  download : String → Option (List UInt8)

/-- The texts the handler sends, one constructor per message of
`HandleMessage`: the initialisation failure, the request for a photo, the
request for a caption, the "processing" notice, the three failure notes and
the "saved" confirmation. -/
inductive Reply where
  | initError
  | sendPhotos
  | addCaption
  | processing (day subject : String)
  | fileError
  | downloadError
  | saveError
  | saved (day subject : String)
deriving DecidableEq, Repr

/-- The `SaveHomework` call of one handler call: its arguments, and the
identifier it returned (`none` when it returned an error). -/
structure SaveCall where
  userID : String
  dayName : String
  subjectName : String
  photoData : List UInt8
  id : Option String
deriving DecidableEq, Repr

/-- The effect of one handler call. -/
structure Outcome where
  handler : Handler
  replies : List Reply
  save : Option SaveCall
deriving DecidableEq, Repr

/-- `getNextDayName` in a zone of fixed offset, `now` being the reading of
the local clock: the weekday name of `time.Now().Add(24 * time.Hour)`. -/
def getNextDayName (now : Int) : String := WeekdayString (Weekday (now + 24 * Hour))

/-- `getNextDayName` at the instant `now` in any zone: `Add` moves the instant
by 24 hours, and `Weekday` is read on the local clock at the instant reached. -/
def getNextDayNameIn (zone : Zone) (now : Int) : String :=
  WeekdayString (Weekday (wallClock zone (now + 24 * Hour)))

/-- `cleanupMediaGroups`: the whole cache is dropped once an hour has passed
since the last cleanup. -/
def cleanupMediaGroups (now : Int) (h : Handler) : Handler :=
  if now - h.lastCleanup < Hour then h
  else { h with mediaGroups := [], lastCleanup := now }

/-- `ensureUserInitialized`: the error of `CreateUser` is logged and the
function continues; the error of `InitializeSchedule` is returned. -/
def ensureUserInitialized (createFaults initFaults : Faults) (now : Int) (s : Store)
    (userID username : String) : Option Err × Store :=
  match InitializeScheduleWith initFaults
      (CreateUserWith createFaults now s userID username).2 userID with
  | (some err, s') => (some err, s')
  | (none, s') => (none, s')

/-- Lines 128-133 of `HandleMessage`: the caption of the message, or the
cached caption of its group when it has none of its own. -/
def resolveCaption (h : Handler) (message : Message) : String :=
  if message.Caption = "" ∧ message.MediaGroupID ≠ "" then
    lookup h.mediaGroups message.MediaGroupID
  else message.Caption

/-- Lines 135-139 of `HandleMessage`: the own caption of a grouped message is
stored in the cache under the group identifier. -/
def rememberCaption (h : Handler) (message : Message) : Handler :=
  if message.MediaGroupID ≠ "" ∧ message.Caption ≠ "" then
    { h with mediaGroups := assign h.mediaGroups message.MediaGroupID message.Caption }
  else h

/-- The condition `message.MediaGroupID == "" || message.Caption != ""` under
which the "processing" notice and the "saved" confirmation are sent. -/
def acknowledges (message : Message) : Bool :=
  decide (message.MediaGroupID = "" ∨ message.Caption ≠ "")

/-- Lines 148-203 of `HandleMessage`, entered with a resolved caption: the
notice, the download of the largest photo size, the save and the replies. -/
def recordPhoto (env : Env) (h : Handler) (message : Message) (userID caption : String) :
    Outcome :=
  let nextDay := getNextDayName env.now
  let subject := env.title caption
  let notice := if acknowledges message = true then [Reply.processing nextDay subject] else []
  match env.getFile (message.Photo.getLastD "") with
  | none =>
    { handler := h,
      replies := notice ++ (if message.MediaGroupID = "" then [Reply.fileError] else []),
      save := none }
  | some link =>
    match env.download link with
    | none =>
      { handler := h,
        replies := notice ++ (if message.MediaGroupID = "" then [Reply.downloadError] else []),
        save := none }
    | some photoBytes =>
      match SaveHomework env.rx (Unix (env.now - env.zoneOffset))
          (Unix (env.now - env.zoneOffset)) h.db userID nextDay subject photoBytes with
      | (Except.error _, db) =>
        { handler := { h with db := db },
          replies := notice ++ (if message.MediaGroupID = "" then [Reply.saveError] else []),
          save := some { userID := userID, dayName := nextDay, subjectName := subject,
                         photoData := photoBytes, id := none } }
      | (Except.ok id, db) =>
        { handler := { h with db := db },
          replies := notice ++
            (if acknowledges message = true then [Reply.saved nextDay subject] else []),
          save := some { userID := userID, dayName := nextDay, subjectName := subject,
                         photoData := photoBytes, id := some id } }

/-- `HandleMessage`. -/
def HandleMessage (env : Env) (h : Handler) (message : Message) : Outcome :=
  let h1 := cleanupMediaGroups env.now h
  let userID := toString message.FromID
  let init := ensureUserInitialized env.createFaults env.initFaults
    (Unix (env.now - env.zoneOffset)) h1.db userID message.UserName
  let h2 : Handler := { h1 with db := init.2 }
  if init.1.isSome = true then
    { handler := h2, replies := [Reply.initError], save := none }
  else if message.Photo = [] then
    { handler := h2, replies := [Reply.sendPhotos], save := none }
  else if resolveCaption h2 message = "" then
    { handler := rememberCaption h2 message, replies := [Reply.addCaption], save := none }
  else
    recordPhoto env (rememberCaption h2 message) message userID (resolveCaption h2 message)

/-- The handler after lines 108-115 of `HandleMessage`: the cache cleaned up
when due, the user created and initialised in the store. -/
def prepared (env : Env) (h : Handler) (message : Message) : Handler :=
  { cleanupMediaGroups env.now h with
    db := (ensureUserInitialized env.createFaults env.initFaults
      (Unix (env.now - env.zoneOffset)) (cleanupMediaGroups env.now h).db
      (toString message.FromID) message.UserName).2 }

/-- The handler run on a sequence of messages, each with the environment of
its call: the outcomes, in order. -/
def HandleMessages : Handler → List (Env × Message) → List Outcome
  | _, [] => []
  | h, (env, message) :: rest =>
    HandleMessage env h message :: HandleMessages (HandleMessage env h message).handler rest

/-- The handler's state after a sequence of messages. -/
def runState : Handler → List (Env × Message) → Handler
  | h, [] => h
  | h, (env, message) :: rest => runState (HandleMessage env h message).handler rest

/-! ## A model of `strings.Title` on Latin and Cyrillic text -/

/-- `isSeparator` of package `strings`: in ASCII everything but letters,
digits and the underscore; beyond ASCII the Unicode spaces. -/
def isSeparator (c : Char) : Bool :=
  if c.toNat ≤ 127 then !(c.isAlphanum || c = '_')
  else c.toNat ∈ [133, 160, 5760, 8192, 8193, 8194, 8195, 8196, 8197, 8198, 8199, 8200, 8201,
    8202, 8232, 8233, 8239, 8287, 12288]

/-- `unicode.ToTitle` on the Latin and Cyrillic small letters; other
characters are left as they are. -/
def toTitle (c : Char) : Char :=
  if 'a' ≤ c ∧ c ≤ 'z' then Char.ofNat (c.toNat - 32)
  else if 'а' ≤ c ∧ c ≤ 'я' then Char.ofNat (c.toNat - 32)
  else if 'ѐ' ≤ c ∧ c ≤ 'џ' then Char.ofNat (c.toNat - 80)
  else c

/-- The loop of `strings.Title`: a character is title-cased when the
character before it is a separator. -/
def titleFrom (prev : Char) : List Char → List Char
  | [] => []
  | c :: rest => (if isSeparator prev then toTitle c else c) :: titleFrom c rest

/-- `strings.Title` on text whose letters are Latin or Cyrillic. -/
def simpleTitle (s : String) : String := String.mk (titleFrom ' ' s.data)

end Handlers

/-!
Homework bot: the update loop

A shallow embedding of the loop body of `PollUpdates` (`updater/updater.go`).
-/

namespace Updater

/-- The field of `tgbotapi.Update` the loop reads: `Message`, a pointer that
is `nil` for every update that is not a new message. -/
structure Update where
  Message : Option Handlers.Message
deriving DecidableEq, Repr

/-- What one pass of the loop of `PollUpdates` does with an update. -/
inductive PollAction where
  | nilDereference
  | handleCommand (message : Handlers.Message)
  | handleMessage (message : Handlers.Message)
  | sendPrompt (chatID : Int)
  | nothing
deriving DecidableEq, Repr

/-- One pass of the loop of `PollUpdates`.  In the branch taken when
`update.Message == nil` the argument `update.Message.Chat.ID` is evaluated
first, which dereferences the nil pointer: the pass ends in a run-time panic. -/
def pollStep (update : Update) : PollAction :=
  match update.Message with
  | none => PollAction.nilDereference
  | some message =>
    if message.IsCommand = true then PollAction.handleCommand message
    else if message.Photo ≠ [] then PollAction.handleMessage message
    else if message.Text ≠ "" then PollAction.sendPrompt message.ChatID
    else PollAction.nothing

end Updater

/-! ## A concrete album -/

namespace Handlers

open Mongo

/-- A store whose only user, `42`, has "Математика" among Monday's subjects. -/
def mathStore : Store :=
  [{ UserID := "42", Username := "alice", CreatedAt := 0, UserContacts := none, IsParent := false,
     Schedule := [{ DayName := "Monday",
                    Subjects := [{ SubjectName := "Математика", Homeworks := [] },
                                 { SubjectName := "Физика", Homeworks := [] }] }] }]

/-- Noon of Sunday, 4 January 1970: the next day is a Monday. -/
def sundayNoon : Int := 3 * Day + 12 * Hour

/-- An environment in which no store call fails and the transport delivers
the photos `p1`, `p2`, `p3` as the bytes 1, 2, 3. -/
def albumEnv : Env :=
  { rx := literalRegexI, title := simpleTitle, now := sundayNoon, zoneOffset := 0,
    createFaults := noFaults, initFaults := noFaults,
    getFile := fun fileID => some fileID,
    download := fun link =>
      if link = "p1" then some [1] else if link = "p2" then some [2]
      else if link = "p3" then some [3] else none }

/-- A photo sent by user `42` (`alice`). -/
def photo (fileID caption group : String) : Message :=
  { FromID := 42, UserName := "alice", ChatID := 42, Text := "", IsCommand := false,
    Photo := [fileID], Caption := caption, MediaGroupID := group }

/-- The album of the specification: three photos of group `G`, the second
captioned "Математика". -/
def album : List (Env × Message) :=
  [(albumEnv, photo "p1" "" "G"), (albumEnv, photo "p2" "Математика" "G"),
   (albumEnv, photo "p3" "" "G")]

/-- The handler as created at Sunday noon over `mathStore`. -/
def handler0 : Handler := NewHandler sundayNoon mathStore

end Handlers

/-! ## Concrete stores used by the examples -/

namespace Mongo

/-- The zone America/New_York between November 2025 and November 2026: UTC-5
until Sunday 8 March 2026, 07:00 UTC (02:00 on the local clock, which then
shows 03:00), UTC-4 from then on. -/
def newYork : Zone := fun t => if t < 1772953200 * Second then -5 * Hour else -4 * Hour

/-- Saturday 7 March 2026, 23:30 in New York (Sunday 04:30 UTC). -/
def saturdayNight : Int := 1772944200 * Second

/-- Monday 9 March 2026, 00:00 in New York (04:00 UTC): the first midnight
after the clock change. -/
def mondayMidnight : Int := 1773028800 * Second

/-- The zone America/Havana between November 2025 and November 2026: UTC-5
until Sunday 8 March 2026, 05:00 UTC (00:00 on the local clock, which then
shows 01:00), UTC-4 from then on. -/
def havana : Zone := fun t => if t < 1772946000 * Second then -5 * Hour else -4 * Hour

/-- Friday 13 March 2026, 00:00:01 in Havana (04:00:01 UTC): just after the
midnight the eraser loop slept until. -/
def fridayMidnight : Int := 1773374401 * Second

/-- The store after user `42` (handle `alice`) wrote to the bot for the first
time: `CreateUser` followed by `InitializeSchedule` on the empty collection. -/
def aliceStore : Store := (InitializeSchedule (CreateUser 0 [] "42" "alice").2 "42").2

/-- The store in which user `7` (handle `parent`) is the only user. -/
def guardianStore : Store := (InitializeSchedule (CreateUser 0 [] "7" "parent").2 "7").2

/-- The store after `alice` (user `42`) and then `parent` (user `7`) wrote to
the bot. -/
def familyStore : Store :=
  (InitializeSchedule (CreateUser 5 aliceStore "7" "parent").2 "7").2

/-- The store after `alice` (user `42`) wrote to the bot and the record of
user `7` was created by the upsert of `InitializeSchedule` (the `CreateUser`
before it having failed): that record has no `user_contacts` field. -/
def upsertedFamilyStore : Store := (InitializeSchedule aliceStore "7").2

/-- The store after user `42` submitted a photo for Saturday's "Русский". -/
def saturdayStore : Store :=
  (SaveHomework literalRegexI 100 100 aliceStore "42" "Saturday" "Русский" [1, 2, 3]).2

/-- The reference for `GetHomeworkStatus`, in the words of the specification:
the Subjects of the first Day of the schedule whose name equals `dayName`,
and no Subject when no Day has that name. -/
def subjectsOfFirstDay (dayName : String) (schedule : List DaySchedule) : List Subject :=
  match schedule.find? (fun d => decide (d.DayName = dayName)) with
  | some d => d.Subjects
  | none => []

/-- A student with one Day, Monday, whose Subject `A` has one Submission and
whose Subject `B` has none. -/
def abStore : Store :=
  [{ UserID := "1", Username := "student", CreatedAt := 0, UserContacts := none, IsParent := false,
     Schedule := [{ DayName := "Monday",
                    Subjects := [{ SubjectName := "A",
                                   Homeworks := [{ Photo := [7], UploadedAt := 3,
                                                   ID := "1-Monday-A-3", UploadedBy := "1" }] },
                                 { SubjectName := "B", Homeworks := [] }] }] }]

/-- Every Submission held anywhere in the collection. -/
def allHomeworks (s : Store) : List Homework :=
  (((s.map (fun u => u.Schedule)).flatten.map (fun d => d.Subjects)).flatten.map
    (fun sj => sj.Homeworks)).flatten

/-- The Subjects of the Days named `dayName` in the records of `userID`, each
with the number of Submissions it holds. -/
def submissionCounts (s : Store) (userID dayName : String) : List (String × Nat) :=
  ((((s.filter (fun u => decide (u.UserID = userID))).map (fun u => u.Schedule)).flatten.filter
    (fun d => decide (d.DayName = dayName))).map (fun d => d.Subjects)).flatten.map
      (fun sj => (sj.SubjectName, sj.Homeworks.length))

/-! ## Facts about the driver primitives -/

theorem findOne_eq_none_iff (f : User → Bool) (s : Store) :
    findOne f s = none ↔ ∀ u ∈ s, f u = false := by
  induction s with
  | nil => simp [findOne]
  | cons a t ih =>
    by_cases h : f a = true
    · simp [findOne, h]
    · simp [findOne, h, ih]

theorem findOne_some_mem {f : User → Bool} {s : Store} {u : User}
    (h : findOne f s = some u) : u ∈ s ∧ f u = true := by
  induction s with
  | nil => simp [findOne] at h
  | cons a t ih =>
    by_cases ha : f a = true
    · simp [findOne, ha] at h
      subst h
      simp [ha]
    · simp [findOne, ha] at h
      have := ih h
      simp [this.1, this.2]

theorem updateOne_matched_zero_iff (f : User → Bool) (g : User → User) (s : Store) :
    (updateOne f g s).2 = 0 ↔ findOne f s = none := by
  induction s with
  | nil => simp [updateOne, findOne]
  | cons a t ih =>
    by_cases ha : f a = true
    · simp [updateOne, findOne, ha]
    · simp [updateOne, findOne, ha, ih]

theorem updateOne_of_findOne_none {f : User → Bool} (g : User → User) {s : Store}
    (h : findOne f s = none) : updateOne f g s = (s, 0) := by
  induction s with
  | nil => simp [updateOne]
  | cons a t ih =>
    by_cases ha : f a = true
    · simp [findOne, ha] at h
    · simp [findOne, ha] at h
      simp [updateOne, ha, ih h]

/-- The shape of a successful `updateOne`: the documents before the first
match and after it are untouched, the match itself is rewritten. -/
theorem updateOne_of_findOne_some {f : User → Bool} (g : User → User) {s : Store} {u : User}
    (h : findOne f s = some u) :
    ∃ pre post, s = pre ++ u :: post ∧ (∀ x ∈ pre, f x = false) ∧ f u = true ∧
      updateOne f g s = (pre ++ g u :: post, 1) := by
  induction s with
  | nil => simp [findOne] at h
  | cons a t ih =>
    by_cases ha : f a = true
    · simp [findOne, ha] at h
      subst h
      exact ⟨[], t, by simp, by simp, ha, by simp [updateOne, ha]⟩
    · simp [findOne, ha] at h
      obtain ⟨pre, post, h1, h2, h3, h4⟩ := ih h
      refine ⟨a :: pre, post, by simp [h1], ?_, h3, by simp [updateOne, ha, h4]⟩
      intro x hx
      rcases List.mem_cons.mp hx with rfl | hx
      · simpa using ha
      · exact h2 x hx

theorem findOne_append_of_none {f : User → Bool} {s : Store} (t : Store)
    (h : findOne f s = none) : findOne f (s ++ t) = findOne f t := by
  induction s with
  | nil => rfl
  | cons a r ih =>
    by_cases ha : f a = true
    · simp [findOne, ha] at h
    · simp [findOne, ha] at h
      simp [findOne, ha, ih h]

theorem findOne_split {f : User → Bool} (pre post : Store) (u : User)
    (hpre : ∀ x ∈ pre, f x = false) (hu : f u = true) :
    findOne f (pre ++ u :: post) = some u := by
  rw [findOne_append_of_none _ ((findOne_eq_none_iff f pre).2 hpre)]
  simp [findOne, hu]

/-! ## Saving against an unknown user, day or subject -/

theorem saveFilter_eq_false_iff (p : String → Bool) (userID dayName : String) (u : User) :
    saveFilter p userID dayName u = false ↔
      (u.UserID = userID → ∀ d ∈ u.Schedule, d.DayName = dayName →
        ∀ sj ∈ d.Subjects, p sj.SubjectName = false) := by
  simp only [saveFilter, dayMatches, Bool.and_eq_false_iff, decide_eq_false_iff_not,
    List.any_eq_false, Bool.not_eq_true, Bool.and_eq_true, decide_eq_true_eq, not_and]
  constructor
  · intro h hu d hd hn sj hsj
    rcases h with h | h
    · exact absurd hu h
    · exact h d hd hn sj hsj
  · intro h
    by_cases hu : u.UserID = userID
    · exact Or.inr (fun d hd hn sj hsj => h hu d hd hn sj hsj)
    · exact Or.inl hu

/-- C1. If no record of the user holds a Day named `dayName` with a Subject
whose name the compiled pattern matches (in particular when the user has no
record, or the pattern is rejected), `SaveHomework` returns an error, no
identifier, and the collection it leaves is the collection it was given. -/
theorem SaveHomework_not_found (rx : RegexI) (now uploadedAt : Int) (s : Store)
    (userID dayName subjectName : String) (photoData : List UInt8)
    (h : ∀ p, rx subjectName = some p → ∀ u ∈ s, u.UserID = userID →
      ∀ d ∈ u.Schedule, d.DayName = dayName → ∀ sj ∈ d.Subjects, p sj.SubjectName = false) :
    ∃ e, SaveHomework rx now uploadedAt s userID dayName subjectName photoData
      = (Except.error e, s) := by
  unfold SaveHomework
  cases hrx : rx subjectName with
  | none => exact ⟨Err.driver, rfl⟩
  | some p =>
    have hnone : findOne (saveFilter p userID dayName) s = none := by
      rw [findOne_eq_none_iff]
      intro u hu
      exact (saveFilter_eq_false_iff p userID dayName u).2 (h p hrx u hu)
    refine ⟨Err.noMatchingSubject, ?_⟩
    simp [updateOne_of_findOne_none _ hnone]

/-- C1 at a concrete input: the template's Monday has no subject "Физика",
so saving there fails and the store stays as it was. -/
theorem SaveHomework_not_found_witness :
    ∃ e, SaveHomework literalRegexI 100 100 aliceStore "42" "Monday" "Физика" [1, 2, 3]
      = (Except.error e, aliceStore) :=
  SaveHomework_not_found literalRegexI 100 100 aliceStore "42" "Monday" "Физика" [1, 2, 3]
    (by
      intro p hp
      obtain rfl : (fun name : String =>
          occursIn ("Физика".data.map foldCase) (name.data.map foldCase)) = p :=
        Option.some.inj hp
      decide)

/-! ## Schedule initialisation -/

theorem InitializeSchedule_of_nonempty {s : Store} {userID : String} {u : User}
    (hu : findOne (byUserID userID) s = some u) (hday : 0 < u.Schedule.length) :
    InitializeSchedule s userID = (none, s) := by
  simp [InitializeSchedule, hu, hday]

/-- When the lookup does not fail: for a user whose stored schedule has at
least one Day, `InitializeSchedule` returns no error and the collection is
unchanged (no Day is added, replaced or duplicated and every Submission stays
where it was), whether or not an update would have failed. -/
theorem InitializeScheduleWith_noop (faults : Faults) (s : Store) (userID : String) (u : User)
    (hfind : faults.find = false)
    (hu : findOne (byUserID userID) s = some u) (hday : 0 < u.Schedule.length) :
    InitializeScheduleWith faults s userID = (none, s) := by
  simp [InitializeScheduleWith, hfind, hu, hday]

/-- The no-op at a concrete input: user `42`, who has a photo saved for
Saturday, is initialised again. -/
theorem InitializeScheduleWith_noop_witness :
    InitializeScheduleWith noFaults saturdayStore "42" = (none, saturdayStore) ∧
      (allHomeworks saturdayStore).length = 2 :=
  ⟨InitializeScheduleWith_noop noFaults saturdayStore "42" _ rfl (by rfl) (by decide),
    by decide⟩

/-- C2. User `42` has a schedule of five Days, with the photo saved for
Saturday recorded under both Subjects named "Русский".  A call of
`InitializeSchedule` whose lookup fails (`FindOne` or its `Decode` returns
an error) and whose update succeeds returns no error and replaces the
schedule by the template: both Submissions are gone.  The same call with a
successful lookup leaves the store as it was. -/
theorem InitializeSchedule_overwrites_on_failed_lookup :
    (findOne (byUserID "42") saturdayStore).map (fun u => u.Schedule.length) = some 5 ∧
      (allHomeworks saturdayStore).length = 2 ∧
      InitializeScheduleWith noFaults saturdayStore "42" = (none, saturdayStore) ∧
      InitializeScheduleWith { find := true, update := false, insert := false }
          saturdayStore "42"
        = (none, aliceStore) ∧
      (allHomeworks aliceStore).length = 0 := by
  refine ⟨?_, ?_, ?_, ?_, ?_⟩
  · decide
  · decide
  · rfl
  · rfl
  · decide

theorem findOne_after_InitializeSchedule (s : Store) (userID : String) :
    ∃ u, findOne (byUserID userID) (InitializeSchedule s userID).2 = some u ∧
      0 < u.Schedule.length := by
  have hlen : 0 < schedules.length := by decide
  unfold InitializeSchedule
  cases hf : findOne (byUserID userID) s with
  | none =>
    refine ⟨upsertedUser userID, ?_, hlen⟩
    simp only [upsertOne, updateOne_of_findOne_none _ hf, if_true]
    rw [findOne_append_of_none _ hf]
    simp [findOne, byUserID, upsertedUser]
  | some u =>
    by_cases hl : 0 < u.Schedule.length
    · exact ⟨u, by simp [hl, hf], hl⟩
    · obtain ⟨pre, post, _, hpre, hu, hup⟩ := updateOne_of_findOne_some setSchedule hf
      refine ⟨setSchedule u, ?_, hlen⟩
      simp only [hl, if_false, upsertOne, hup]
      simp only [one_ne_zero, if_false]
      exact findOne_split pre post (setSchedule u) hpre (by simpa [byUserID, setSchedule] using hu)

/-- C5. Initialising twice is initialising once: the second consecutive
call returns no error and leaves the collection of the first call, so the
user record read after the first call (which exists and has a non-empty
schedule) is the record read after the second. -/
theorem InitializeSchedule_idempotent (s : Store) (userID : String) :
    InitializeSchedule (InitializeSchedule s userID).2 userID
        = (none, (InitializeSchedule s userID).2) ∧
      ∃ u, GetUser (InitializeSchedule s userID).2 userID = Except.ok u ∧
        GetUser (InitializeSchedule (InitializeSchedule s userID).2 userID).2 userID
          = Except.ok u ∧
        0 < u.Schedule.length := by
  obtain ⟨u, hu, hl⟩ := findOne_after_InitializeSchedule s userID
  have h2 := InitializeSchedule_of_nonempty hu hl
  refine ⟨h2, u, ?_, ?_, hl⟩
  · simp [GetUser, hu]
  · rw [h2]
    simp [GetUser, hu]

/-! ## The contact list -/

theorem HasPrefix_at_append (h : String) : HasPrefix ("@" ++ h) "@" = true := by
  have hd : ("@" ++ h).data = '@' :: h.data := by
    rw [String.data_append]
    rfl
  have ha : "@".data = ['@'] := rfl
  simp [HasPrefix, hd, ha]

theorem TrimPrefix_at_append (h : String) : TrimPrefix ("@" ++ h) "@" = h := by
  have hd : ("@" ++ h).data = '@' :: h.data := by
    rw [String.data_append]
    rfl
  have ha : "@".data = ['@'] := rfl
  simp [TrimPrefix, HasPrefix_at_append, hd, ha]

theorem TrimPrefix_of_bare {h : String} (hb : HasPrefix h "@" = false) :
    TrimPrefix h "@" = h := by
  simp [TrimPrefix, hb]

/-- The student is looked up under the handle without one leading `@`,
whichever way the caller wrote it. -/
theorem TrimPrefix_canonicalHandle (h : String) :
    TrimPrefix (canonicalHandle h) "@" = TrimPrefix h "@" := by
  unfold canonicalHandle
  by_cases hb : HasPrefix h "@" = false
  · simp [hb, TrimPrefix_at_append, TrimPrefix_of_bare hb]
  · simp [hb]

theorem canonicalHandle_of_bare {h : String} (hb : HasPrefix h "@" = false) :
    canonicalHandle h = "@" ++ h := by
  simp [canonicalHandle, hb]

theorem canonicalHandle_at_append (h : String) : canonicalHandle ("@" ++ h) = "@" ++ h := by
  simp [canonicalHandle, HasPrefix_at_append]

/-- C7. When no record carries the handle (the argument without one leading
`@`), `AddStudentContact` fails with "student not found" and the collection
is unchanged: the guardian gains no contact and keeps their flag. -/
theorem AddStudentContact_unknown_student (s : Store) (parentUserID studentUsername : String)
    (h : ∀ u ∈ s, u.Username ≠ TrimPrefix studentUsername "@") :
    AddStudentContact s parentUserID studentUsername = (some Err.studentNotFound, s) := by
  have hnone : findOne (byUsername (TrimPrefix (canonicalHandle studentUsername) "@")) s
      = none := by
    rw [findOne_eq_none_iff, TrimPrefix_canonicalHandle]
    intro u hu
    simpa [byUsername] using h u hu
  simp [AddStudentContact, hnone]

/-- C7 at the input of the specification: no user is called `alice` in the
store where the guardian `7` is the only user; the handle is written with
and without the `@`. -/
theorem AddStudentContact_unknown_student_witness :
    AddStudentContact guardianStore "7" "alice" = (some Err.studentNotFound, guardianStore) ∧
      AddStudentContact guardianStore "7" "@alice"
        = (some Err.studentNotFound, guardianStore) :=
  ⟨AddStudentContact_unknown_student guardianStore "7" "alice" (by decide),
   AddStudentContact_unknown_student guardianStore "7" "@alice" (by decide)⟩

theorem findOne_isSome_replace (f : User → Bool) (pre post : Store) (u u' : User)
    (hu : f u' = f u) :
    (findOne f (pre ++ u' :: post)).isSome = (findOne f (pre ++ u :: post)).isSome := by
  induction pre with
  | nil =>
    by_cases ha : f u = true
    · simp [findOne, ha, hu]
    · simp [findOne, ha, hu]
  | cons a t ih =>
    by_cases ha : f a = true
    · simp [findOne, ha]
    · simpa [findOne, ha] using ih

theorem addToSet_mem (x : String) (xs : List String) : x ∈ addToSet x xs := by
  unfold addToSet
  by_cases h : x ∈ xs
  · simp [h]
  · simp [h]

theorem addToSet_addToSet (x : String) (xs : List String) :
    addToSet x (addToSet x xs) = addToSet x xs := by
  have h := addToSet_mem x xs
  generalize addToSet x xs = ys at h
  simp [addToSet, h]

theorem addContact_addContact (c : String) (u : User) :
    addContact c (addContact c u) = addContact c u := by
  cases h : u.UserContacts <;> simp [addContact, h, addToSet_addToSet]

/-- What one `AddStudentContact` does once the student is found and the
guardian has a record whose `user_contacts` is an array: the guardian's
record, and nothing else, is rewritten. -/
theorem AddStudentContact_found {s : Store} {g h : String} {gu su : User} {l : List String}
    (hg : findOne (byUserID g) s = some gu)
    (hs : findOne (byUsername (TrimPrefix h "@")) s = some su)
    (hl : gu.UserContacts = some l) :
    ∃ pre post, s = pre ++ gu :: post ∧ (∀ x ∈ pre, byUserID g x = false) ∧
      byUserID g gu = true ∧
      AddStudentContact s g h = (none, pre ++ addContact (canonicalHandle h) gu :: post) := by
  obtain ⟨pre, post, h1, h2, h3, h4⟩ :=
    updateOne_of_findOne_some (addContact (canonicalHandle h)) hg
  refine ⟨pre, post, h1, h2, h3, ?_⟩
  simp [AddStudentContact, TrimPrefix_canonicalHandle, hs, hg, hl, h4]

/-- What `AddStudentContact` does when the student is found and the
guardian's record holds `user_contacts: null`: the update is rejected, the
driver's error is returned and nothing is written. -/
theorem AddStudentContact_null {s : Store} {g h : String} {gu su : User}
    (hg : findOne (byUserID g) s = some gu)
    (hs : findOne (byUsername (TrimPrefix h "@")) s = some su)
    (hl : gu.UserContacts = none) :
    AddStudentContact s g h = (some Err.driver, s) := by
  simp [AddStudentContact, TrimPrefix_canonicalHandle, hs, hg, hl]

/-- The record `CreateUser` inserts for a new user holds `user_contacts: null`. -/
theorem CreateUser_inserts_null (now : Int) (s : Store) (userID username : String)
    (hnew : findOne (byUserID userID) s = none) :
    ∃ u, findOne (byUserID userID) (CreateUser now s userID username).2 = some u ∧
      u.UserContacts = none := by
  refine ⟨{ UserID := userID, Username := username, CreatedAt := now, Schedule := [],
            UserContacts := none, IsParent := false }, ?_, rfl⟩
  simp only [CreateUser, hnew]
  rw [findOne_append_of_none _ hnew]
  simp [findOne, byUserID]

/-- C8. The guardian `7` and the student `alice` both wrote to the bot, so
both have a record, each inserted by `CreateUser` and given its schedule by
`InitializeSchedule`.  The guardian's record holds `user_contacts: null`, and
`AddStudentContact "7" "alice"`, with the handle written either way, returns
the error of the rejected `$addToSet`: the store is unchanged, no contact is
listed and the guardian flag stays false. -/
theorem AddStudentContact_rejected_after_CreateUser :
    familyStore = (InitializeSchedule (CreateUser 5 aliceStore "7" "parent").2 "7").2 ∧
      (findOne (byUserID "7") familyStore).map (fun u => (u.UserContacts, u.IsParent))
        = some (none, false) ∧
      (findOne (byUsername "alice") familyStore).map (fun u => u.UserID) = some "42" ∧
      AddStudentContact familyStore "7" "alice" = (some Err.driver, familyStore) ∧
      AddStudentContact familyStore "7" "@alice" = (some Err.driver, familyStore) := by
  refine ⟨rfl, ?_, ?_, ?_, ?_⟩
  · decide
  · decide
  · rfl
  · rfl

/-- With `h` a handle in its bare form (no leading `@`, so that `"@" ++ h`
is its canonical form), a record for the guardian `g` whose `user_contacts`
is an array and a record with the handle `h`: `AddStudentContact g h`
succeeds, the guardian's record then lists `"@" ++ h` and is flagged as a
guardian, and a second call with the handle written either way succeeds and
changes nothing. -/
theorem AddStudentContact_set_semantics (s : Store) (g h : String) (gu su : User)
    (l : List String) (hbare : HasPrefix h "@" = false)
    (hg : findOne (byUserID g) s = some gu) (hs : findOne (byUsername h) s = some su)
    (hl : gu.UserContacts = some l) :
    (AddStudentContact s g h).1 = none ∧
      (∃ gu' l', findOne (byUserID g) (AddStudentContact s g h).2 = some gu' ∧
        gu'.UserContacts = some l' ∧ ("@" ++ h) ∈ l' ∧ gu'.IsParent = true) ∧
      AddStudentContact (AddStudentContact s g h).2 g h
        = (none, (AddStudentContact s g h).2) ∧
      AddStudentContact (AddStudentContact s g h).2 g ("@" ++ h)
        = (none, (AddStudentContact s g h).2) := by
  have hs1 : findOne (byUsername (TrimPrefix h "@")) s = some su := by
    rw [TrimPrefix_of_bare hbare]; exact hs
  obtain ⟨pre, post, h1, h2, h3, h4⟩ := AddStudentContact_found hg hs1 hl
  rw [canonicalHandle_of_bare hbare] at h4
  have hl' : (addContact ("@" ++ h) gu).UserContacts = some (addToSet ("@" ++ h) l) := by
    simp [addContact, hl]
  have hg' : findOne (byUserID g) (pre ++ addContact ("@" ++ h) gu :: post)
      = some (addContact ("@" ++ h) gu) :=
    findOne_split pre post _ h2 (by simpa [byUserID, addContact] using h3)
  have hsome : (findOne (byUsername h) (pre ++ addContact ("@" ++ h) gu :: post)).isSome
      = true := by
    rw [findOne_isSome_replace (byUsername h) pre post gu _ (by simp [byUsername, addContact]),
      ← h1, hs]
    rfl
  obtain ⟨su', hs'⟩ := Option.isSome_iff_exists.mp hsome
  have hs1' : findOne (byUsername (TrimPrefix h "@"))
      (pre ++ addContact ("@" ++ h) gu :: post) = some su' := by
    rw [TrimPrefix_of_bare hbare]; exact hs'
  have hs2' : findOne (byUsername (TrimPrefix ("@" ++ h) "@"))
      (pre ++ addContact ("@" ++ h) gu :: post) = some su' := by
    rw [TrimPrefix_at_append]; exact hs'
  have hagain : ∀ h', canonicalHandle h' = "@" ++ h →
      findOne (byUsername (TrimPrefix h' "@")) (pre ++ addContact ("@" ++ h) gu :: post)
        = some su' →
      AddStudentContact (pre ++ addContact ("@" ++ h) gu :: post) g h'
        = (none, pre ++ addContact ("@" ++ h) gu :: post) := by
    intro h' hc hf
    obtain ⟨pre', post', e1, e2, e3, e4⟩ := AddStudentContact_found hg' hf hl'
    rw [e4, hc, addContact_addContact, ← e1]
  rw [h4]
  refine ⟨rfl, ⟨_, _, hg', hl', ?_, ?_⟩, ?_, ?_⟩
  · exact addToSet_mem _ _
  · simp [addContact]
  · exact hagain h (canonicalHandle_of_bare hbare) hs1'
  · exact hagain ("@" ++ h) (canonicalHandle_at_append h) hs2'

/-- The set semantics at a concrete input: the guardian `7`, whose record
the upsert of `InitializeSchedule` created, adds `alice`, then adds her again
as `alice` and as `@alice`. -/
theorem AddStudentContact_set_semantics_witness :
    (AddStudentContact upsertedFamilyStore "7" "alice").1 = none ∧
      (∃ gu' l', findOne (byUserID "7") (AddStudentContact upsertedFamilyStore "7" "alice").2
          = some gu' ∧
        gu'.UserContacts = some l' ∧ ("@" ++ "alice") ∈ l' ∧ gu'.IsParent = true) ∧
      AddStudentContact (AddStudentContact upsertedFamilyStore "7" "alice").2 "7" "alice"
        = (none, (AddStudentContact upsertedFamilyStore "7" "alice").2) ∧
      AddStudentContact (AddStudentContact upsertedFamilyStore "7" "alice").2 "7"
          ("@" ++ "alice")
        = (none, (AddStudentContact upsertedFamilyStore "7" "alice").2) :=
  AddStudentContact_set_semantics upsertedFamilyStore "7" "alice"
    { UserID := "7", Username := "", Schedule := schedules, CreatedAt := zeroTime,
      UserContacts := some [], IsParent := false }
    { UserID := "42", Username := "alice", Schedule := schedules, CreatedAt := 0,
      UserContacts := none, IsParent := false }
    [] (by decide) (by rfl) (by rfl) rfl

/-! ## What a successful save writes -/

/-- C3, refuted as stated: on the template's Saturday the query "Русский"
succeeds and appends the Submission to both Subjects of that name, so the
store gains two Submissions, not one. -/
theorem SaveHomework_writes_both_homonyms :
    (SaveHomework literalRegexI 100 100 aliceStore "42" "Saturday" "Русский" [1, 2, 3]).1
        = Except.ok "42-Saturday-Русский-100" ∧
      (allHomeworks aliceStore).length = 0 ∧
      (allHomeworks
        (SaveHomework literalRegexI 100 100 aliceStore "42" "Saturday" "Русский"
          [1, 2, 3]).2).length = 2 ∧
      submissionCounts
        (SaveHomework literalRegexI 100 100 aliceStore "42" "Saturday" "Русский" [1, 2, 3]).2
        "42" "Saturday"
        = [("Физика", 0), ("Алгебра", 0), ("Русский", 1), ("Английский", 0), ("Русский", 1),
           ("География", 0), ("Музыка", 0)] := by
  refine ⟨?_, ?_, ?_, ?_⟩
  · rfl
  · decide
  · decide
  · decide

theorem saveFilter_eq_true_iff (p : String → Bool) (userID dayName : String) (u : User) :
    saveFilter p userID dayName u = true ↔
      u.UserID = userID ∧ ∃ d ∈ u.Schedule, d.DayName = dayName ∧
        ∃ sj ∈ d.Subjects, p sj.SubjectName = true := by
  simp [saveFilter, dayMatches]

/-- The update of `SaveHomework`, read entry by entry: Days and Subjects keep
their place and their name, and a Subject gains the Submission at the end of
its list exactly when its Day is named `dayName` and the pattern matches its
name. -/
theorem pushHomework_schedule (p : String → Bool) (dayName : String) (hw : Homework)
    (u : User) :
    List.Forall₂
      (fun d d' => d'.DayName = d.DayName ∧
        List.Forall₂
          (fun sj sj' => sj'.SubjectName = sj.SubjectName ∧
            sj'.Homeworks =
              if d.DayName = dayName ∧ p sj.SubjectName = true then sj.Homeworks ++ [hw]
              else sj.Homeworks)
          d.Subjects d'.Subjects)
      u.Schedule (pushHomework p dayName hw u).Schedule := by
  simp only [pushHomework]
  rw [List.forall₂_map_right_iff, List.forall₂_same]
  intro d _
  by_cases hd : d.DayName = dayName
  · simp only [pushDay, hd, if_true, true_and]
    rw [List.forall₂_map_right_iff, List.forall₂_same]
    intro sj _
    by_cases hp : p sj.SubjectName = true
    · simp [pushSubject, hp]
    · simp [pushSubject, hp]
  · simp only [pushDay, hd, if_false, false_and, true_and]
    rw [List.forall₂_same]
    intro sj _
    simp

/-- C3, amended. A successful `SaveHomework` returns the identifier built
from its arguments and rewrites one record only, the first record of the
user that has a Day named `dayName` with a Subject the pattern matches.  In
that record the Submission (photo, uploader, identifier as given) is
appended at the end of every Subject the pattern matches in every Day named
`dayName`; every other Subject, every Day name, Subject name and other
field, and every other record, is unchanged. -/
theorem SaveHomework_appends (rx : RegexI) (now uploadedAt : Int) (s s' : Store)
    (userID dayName subjectName id : String) (photoData : List UInt8)
    (h : SaveHomework rx now uploadedAt s userID dayName subjectName photoData
      = (Except.ok id, s')) :
    id = homeworkID userID dayName subjectName now ∧
    ∃ p pre u u' post,
      rx subjectName = some p ∧
      s = pre ++ u :: post ∧ s' = pre ++ u' :: post ∧
      (∀ x ∈ pre, saveFilter p userID dayName x = false) ∧
      u.UserID = userID ∧
      (∃ d ∈ u.Schedule, d.DayName = dayName ∧ ∃ sj ∈ d.Subjects, p sj.SubjectName = true) ∧
      u'.UserID = u.UserID ∧ u'.Username = u.Username ∧ u'.CreatedAt = u.CreatedAt ∧
      u'.UserContacts = u.UserContacts ∧ u'.IsParent = u.IsParent ∧
      List.Forall₂
        (fun d d' => d'.DayName = d.DayName ∧
          List.Forall₂
            (fun sj sj' => sj'.SubjectName = sj.SubjectName ∧
              sj'.Homeworks =
                if d.DayName = dayName ∧ p sj.SubjectName = true then
                  sj.Homeworks ++
                    [{ Photo := photoData, UploadedAt := uploadedAt, ID := id,
                       UploadedBy := userID }]
                else sj.Homeworks)
            d.Subjects d'.Subjects)
        u.Schedule u'.Schedule := by
  unfold SaveHomework at h
  cases hrx : rx subjectName with
  | none => simp [hrx] at h
  | some p =>
    simp only [hrx] at h
    cases hf : findOne (saveFilter p userID dayName) s with
    | none => simp [updateOne_of_findOne_none _ hf] at h
    | some u =>
      obtain ⟨pre, post, h1, h2, h3, h4⟩ := updateOne_of_findOne_some
        (pushHomework p dayName
          { Photo := photoData, UploadedAt := uploadedAt,
            ID := homeworkID userID dayName subjectName now, UploadedBy := userID }) hf
      simp only [h4, one_ne_zero, if_false, Prod.mk.injEq, Except.ok.injEq] at h
      obtain ⟨hid, hs'⟩ := h
      subst hid
      obtain ⟨hu1, hu2⟩ := (saveFilter_eq_true_iff p userID dayName u).1 h3
      refine ⟨rfl, p, pre, u, _, post, rfl, h1, hs'.symm, h2, hu1, hu2, rfl, rfl, rfl, rfl, rfl, ?_⟩
      exact pushHomework_schedule p dayName _ u

/-- C3, amended, at the template's Saturday: the save succeeds there, with the
identifier the theorem gives. -/
theorem SaveHomework_appends_witness :
    SaveHomework literalRegexI 100 100 aliceStore "42" "Saturday" "Русский" [1, 2, 3]
        = (Except.ok "42-Saturday-Русский-100", saturdayStore) ∧
      "42-Saturday-Русский-100" = homeworkID "42" "Saturday" "Русский" 100 :=
  ⟨by rfl,
   (SaveHomework_appends literalRegexI 100 100 aliceStore saturdayStore "42" "Saturday"
      "Русский" "42-Saturday-Русский-100" [1, 2, 3] (by rfl)).1⟩

/-! ## Saving, then fetching -/

/-- Reading after a write: when the filters `f` and `f''` both select the
record `u`, and the update filter `f'` is at least as strict as `f''`, the
record `f` selects after `updateOne f' g` is `u`, rewritten if `f'` holds of it. -/
theorem findOne_updateOne_same_record {f f' f'' : User → Bool} (g : User → User)
    {s : Store} {u : User}
    (h : findOne f s = some u) (h'' : findOne f'' s = some u)
    (himp : ∀ x, f' x = true → f'' x = true) (hg : f (g u) = true) :
    findOne f (updateOne f' g s).1 = some (if f' u = true then g u else u) := by
  induction s with
  | nil => simp [findOne] at h
  | cons a t ih =>
    by_cases ha : f a = true
    · have hau : a = u := by simpa [findOne, ha] using h
      subst hau
      by_cases ha' : f' a = true
      · simp [updateOne, ha', findOne, hg]
      · simp [updateOne, ha', findOne, ha]
    · have ht : findOne f t = some u := by simpa [findOne, ha] using h
      have ha'' : ¬ f'' a = true := by
        intro hc
        have hau : a = u := by simpa [findOne, hc] using h''
        exact ha (hau ▸ (findOne_some_mem h).2)
      have ha' : ¬ f' a = true := fun hc => ha'' (himp a hc)
      have ht'' : findOne f'' t = some u := by simpa [findOne, ha''] using h''
      simpa [updateOne, ha', findOne, ha] using ih ht ht''

theorem findHomework_append_fresh (id : String) (hw : Homework) (hid : hw.ID = id)
    (l : List Homework) (hfresh : ∀ x ∈ l, x.ID ≠ id) :
    findHomework id (l ++ [hw]) = Except.ok hw := by
  induction l with
  | nil => simp [findHomework, hid]
  | cons a t ih =>
    have ha : a.ID ≠ id := hfresh a (by simp)
    simp only [List.cons_append, findHomework, ha, if_false]
    exact ih (fun x hx => hfresh x (by simp [hx]))

theorem findSubject_map (subjectName id : String) (G : Subject → Subject)
    (hG : ∀ sj, (G sj).SubjectName = sj.SubjectName) (l : List Subject) (sj : Subject)
    (h : l.find? (fun x => decide (x.SubjectName = subjectName)) = some sj) :
    findSubject subjectName id (l.map G) = findHomework id (G sj).Homeworks := by
  induction l with
  | nil => simp at h
  | cons a t ih =>
    by_cases ha : a.SubjectName = subjectName
    · have : a = sj := by simpa [List.find?, ha] using h
      subst this
      simp [findSubject, hG, ha]
    · have ht : t.find? (fun x => decide (x.SubjectName = subjectName)) = some sj := by
        simpa [List.find?, ha] using h
      simp only [List.map_cons, findSubject, hG, ha, if_false]
      exact ih ht

theorem findDay_map (dayName subjectName id : String) (F : DaySchedule → DaySchedule)
    (hF : ∀ d, (F d).DayName = d.DayName) (l : List DaySchedule) (d : DaySchedule)
    (h : l.find? (fun x => decide (x.DayName = dayName)) = some d) :
    findDay dayName subjectName id (l.map F) = findSubject subjectName id (F d).Subjects := by
  induction l with
  | nil => simp at h
  | cons a t ih =>
    by_cases ha : a.DayName = dayName
    · have : a = d := by simpa [List.find?, ha] using h
      subst this
      simp [findDay, hF, ha]
    · have ht : t.find? (fun x => decide (x.DayName = dayName)) = some d := by
        simpa [List.find?, ha] using h
      simp only [List.map_cons, findDay, hF, ha, if_false]
      exact ih ht

theorem pushDay_DayName (p : String → Bool) (dayName : String) (hw : Homework)
    (d : DaySchedule) : (pushDay p dayName hw d).DayName = d.DayName := by
  unfold pushDay
  split <;> rfl

theorem pushSubject_SubjectName (p : String → Bool) (hw : Homework) (sj : Subject) :
    (pushSubject p hw sj).SubjectName = sj.SubjectName := by
  unfold pushSubject
  split <;> rfl

theorem dayFilter_pushHomework (p : String → Bool) (userID dayName dn : String)
    (hw : Homework) (u : User) :
    dayFilter userID dayName (pushHomework p dn hw u) = dayFilter userID dayName u := by
  simp [dayFilter, pushHomework, List.any_map, Function.comp_def, pushDay_DayName]

theorem dayFilter_of_saveFilter (p : String → Bool) (userID dayName : String) (u : User)
    (h : saveFilter p userID dayName u = true) : dayFilter userID dayName u = true := by
  obtain ⟨hu, d, hd, hn, _⟩ := (saveFilter_eq_true_iff p userID dayName u).1 h
  simp only [dayFilter, Bool.and_eq_true, decide_eq_true_eq, List.any_eq_true]
  exact ⟨hu, d, hd, hn⟩

/-- C4, amended. Round trip for an exact subject name.  Let `u` be the
record `GetHomework` reads (the first record of the user with a Day named
`dayName`), `d` its first Day of that name and `sj` the first Subject of `d`
named exactly `subjectName`; let the pattern `subjectName` match the name
`subjectName`, and let `sj` hold no Submission carrying the identifier about
to be issued.  Then `SaveHomework` succeeds, and `GetHomework` with the same
arguments and the returned identifier succeeds on the resulting store and
returns the Submission just saved: photo `photoData`, that identifier. -/
theorem SaveHomework_GetHomework_exact (rx : RegexI) (now uploadedAt : Int) (s : Store)
    (userID dayName subjectName : String) (photoData : List UInt8)
    (p : String → Bool) (u : User) (d : DaySchedule) (sj : Subject)
    (hrx : rx subjectName = some p) (hself : p subjectName = true)
    (hu : findOne (dayFilter userID dayName) s = some u)
    (hd : u.Schedule.find? (fun x => decide (x.DayName = dayName)) = some d)
    (hsj : d.Subjects.find? (fun x => decide (x.SubjectName = subjectName)) = some sj)
    (hfresh : ∀ x ∈ sj.Homeworks, x.ID ≠ homeworkID userID dayName subjectName now) :
    (SaveHomework rx now uploadedAt s userID dayName subjectName photoData).1
        = Except.ok (homeworkID userID dayName subjectName now) ∧
      GetHomework (SaveHomework rx now uploadedAt s userID dayName subjectName photoData).2
          userID dayName subjectName (homeworkID userID dayName subjectName now)
        = Except.ok { Photo := photoData, UploadedAt := uploadedAt,
                      ID := homeworkID userID dayName subjectName now, UploadedBy := userID } := by
  have hdn : d.DayName = dayName := by simpa using List.find?_some hd
  have hdm : d ∈ u.Schedule := List.mem_of_find?_eq_some hd
  have hsn : sj.SubjectName = subjectName := by simpa using List.find?_some hsj
  have hsm : sj ∈ d.Subjects := List.mem_of_find?_eq_some hsj
  have huid : u.UserID = userID := by
    have := (findOne_some_mem hu).2
    simp only [dayFilter, Bool.and_eq_true, decide_eq_true_eq] at this
    exact this.1
  have hsave : saveFilter p userID dayName u = true :=
    (saveFilter_eq_true_iff p userID dayName u).2
      ⟨huid, d, hdm, hdn, sj, hsm, by rw [hsn]; exact hself⟩
  have hmatched : (updateOne (saveFilter p userID dayName)
      (pushHomework p dayName
        { Photo := photoData, UploadedAt := uploadedAt,
          ID := homeworkID userID dayName subjectName now, UploadedBy := userID }) s).2 ≠ 0 := by
    rw [Ne, updateOne_matched_zero_iff, findOne_eq_none_iff]
    intro hall
    have := hall u (findOne_some_mem hu).1
    rw [hsave] at this
    exact Bool.noConfusion this
  have hread := findOne_updateOne_same_record
    (pushHomework p dayName
      { Photo := photoData, UploadedAt := uploadedAt,
        ID := homeworkID userID dayName subjectName now, UploadedBy := userID })
    hu hu (dayFilter_of_saveFilter p userID dayName)
    (by rw [dayFilter_pushHomework]; exact (findOne_some_mem hu).2)
  simp only [hsave, if_true] at hread
  simp only [SaveHomework, hrx, hmatched, if_false, GetHomework, hread, true_and]
  simp only [pushHomework]
  rw [findDay_map _ _ _ _ (pushDay_DayName p dayName _) _ d hd]
  simp only [pushDay, hdn, if_true]
  rw [findSubject_map _ _ _ (pushSubject_SubjectName p _) _ sj hsj]
  simp only [pushSubject, hsn, hself, if_true]
  exact findHomework_append_fresh (homeworkID userID dayName subjectName now) _ rfl _ hfresh

/-- C4, amended, at a concrete input: user `42` saves a photo for Wednesday's
"Физика" (the template's Monday has no such subject) and fetches it back. -/
theorem SaveHomework_GetHomework_exact_witness :
    (SaveHomework literalRegexI 100 101 aliceStore "42" "Wednesday" "Физика" [1, 2, 3]).1
        = Except.ok (homeworkID "42" "Wednesday" "Физика" 100) ∧
      GetHomework
          (SaveHomework literalRegexI 100 101 aliceStore "42" "Wednesday" "Физика" [1, 2, 3]).2
          "42" "Wednesday" "Физика" (homeworkID "42" "Wednesday" "Физика" 100)
        = Except.ok { Photo := [1, 2, 3], UploadedAt := 101,
                      ID := homeworkID "42" "Wednesday" "Физика" 100, UploadedBy := "42" } :=
  SaveHomework_GetHomework_exact literalRegexI 100 101 aliceStore "42" "Wednesday" "Физика"
    [1, 2, 3]
    (fun name => occursIn ("Физика".data.map foldCase) (name.data.map foldCase))
    { UserID := "42", Username := "alice", Schedule := schedules, CreatedAt := 0,
      UserContacts := none, IsParent := false }
    { DayName := "Wednesday",
      Subjects := ["Физика", "Информатика", "Физкультура", "Алгебра", "Английский",
        "Общество"].map emptySubject }
    (emptySubject "Физика")
    (by rfl) (by decide) (by rfl) (by rfl) (by rfl) (by simp [emptySubject])

/-- C4, refuted as stated.  On the store of user `42` the query "Физ", a
proper part of the subject name "Физика", is accepted by `SaveHomework`, and
`GetHomework` with the same query and the returned identifier fails with
"subject not found"; so does, on `abStore`, the query "a", which differs from
the subject name "A" in letter case only.  With the exact name, a second
save within the same second returns the identifier of the first, and
`GetHomework` returns the first photo, not the one just saved. -/
theorem GetHomework_after_save_fails :
    ((SaveHomework literalRegexI 100 100 aliceStore "42" "Wednesday" "Физ" [1, 2, 3]).1
        = Except.ok "42-Wednesday-Физ-100" ∧
      GetHomework
          (SaveHomework literalRegexI 100 100 aliceStore "42" "Wednesday" "Физ" [1, 2, 3]).2
          "42" "Wednesday" "Физ" "42-Wednesday-Физ-100"
        = Except.error Err.subjectNotFound) ∧
    ((SaveHomework literalRegexI 100 100 abStore "1" "Monday" "a" [1, 2, 3]).1
        = Except.ok "1-Monday-a-100" ∧
      GetHomework
          (SaveHomework literalRegexI 100 100 abStore "1" "Monday" "a" [1, 2, 3]).2
          "1" "Monday" "a" "1-Monday-a-100"
        = Except.error Err.subjectNotFound) ∧
    ((SaveHomework literalRegexI 100 100
          (SaveHomework literalRegexI 100 100 aliceStore "42" "Wednesday" "Физика" [1]).2
          "42" "Wednesday" "Физика" [2]).1
        = Except.ok "42-Wednesday-Физика-100" ∧
      GetHomework
          (SaveHomework literalRegexI 100 100
            (SaveHomework literalRegexI 100 100 aliceStore "42" "Wednesday" "Физика" [1]).2
            "42" "Wednesday" "Физика" [2]).2
          "42" "Wednesday" "Физика" "42-Wednesday-Физика-100"
        = Except.ok { Photo := [1], UploadedAt := 100, ID := "42-Wednesday-Физика-100",
                      UploadedBy := "42" }) := by
  refine ⟨⟨?_, ?_⟩, ⟨?_, ?_⟩, ⟨?_, ?_⟩⟩ <;> rfl

/-! ## Homework status -/

theorem HomeworkMap.get?_set (m : HomeworkMap) (k n : String) (v : List Homework) :
    (m.set k v).get? n = if k = n then some v else m.get? n := by
  induction m with
  | nil => simp [HomeworkMap.set, HomeworkMap.get?]
  | cons a t ih =>
    obtain ⟨k', v'⟩ := a
    by_cases hk : k' = k
    · subst hk
      by_cases hn : k' = n
      · simp [HomeworkMap.set, HomeworkMap.get?, hn]
      · simp [HomeworkMap.set, HomeworkMap.get?, hn]
    · by_cases hn : k' = n
      · subst hn
        have hk2 : ¬ k = k' := fun h => hk h.symm
        simp [HomeworkMap.set, HomeworkMap.get?, hk, hk2]
      · simp [HomeworkMap.set, HomeworkMap.get?, hk, hn, ih]

theorem HomeworkMap.keys_set (m : HomeworkMap) (k : String) (v : List Homework) :
    (m.set k v).map Prod.fst
      = if k ∈ m.map Prod.fst then m.map Prod.fst else m.map Prod.fst ++ [k] := by
  induction m with
  | nil => simp [HomeworkMap.set]
  | cons a t ih =>
    obtain ⟨k', v'⟩ := a
    by_cases hk : k' = k
    · subst hk
      simp [HomeworkMap.set]
    · have hk2 : ¬ k = k' := fun h => hk h.symm
      by_cases hm : k ∈ t.map Prod.fst
      · simp only [HomeworkMap.set, hk, if_false, List.map_cons, ih, hm, if_true,
          List.mem_cons, or_true]
      · simp only [HomeworkMap.set, hk, if_false, List.map_cons, ih, hm, List.mem_cons,
          hk2, or_self, List.cons_append]

theorem HomeworkMap.keys_set_nodup (m : HomeworkMap) (k : String) (v : List Homework)
    (h : (m.map Prod.fst).Nodup) : ((m.set k v).map Prod.fst).Nodup := by
  rw [HomeworkMap.keys_set]
  by_cases hm : k ∈ m.map Prod.fst
  · simpa [hm] using h
  · simp only [hm, if_false]
    exact List.Nodup.append h (List.nodup_singleton k) (by simpa using hm)

/-- The inner loop of `GetHomeworkStatus`, from any accumulated state. -/
theorem statusSubjects_spec (l : List Subject) (acc : Status) :
    (statusSubjects l acc).completed
        = acc.completed ++
          (l.filter (fun sj => decide (0 < sj.Homeworks.length))).map (fun sj => sj.SubjectName) ∧
      (statusSubjects l acc).incomplete
        = acc.incomplete ++
          (l.filter (fun sj => decide (sj.Homeworks.length = 0))).map (fun sj => sj.SubjectName) ∧
      ((acc.homeworkMap.map Prod.fst).Nodup →
        ((statusSubjects l acc).homeworkMap.map Prod.fst).Nodup) ∧
      ∀ n, (statusSubjects l acc).homeworkMap.get? n
        = match l.reverse.find?
            (fun sj => decide (sj.SubjectName = n) && decide (0 < sj.Homeworks.length)) with
          | some sj => some sj.Homeworks
          | none => acc.homeworkMap.get? n := by
  induction l generalizing acc with
  | nil => simp [statusSubjects]
  | cons a t ih =>
    by_cases ha : 0 < a.Homeworks.length
    · have ha0 : ¬ a.Homeworks = [] := by
        intro h; rw [h] at ha; simp at ha
      obtain ⟨h1, h2, h3, h4⟩ := ih
        { acc with completed := acc.completed ++ [a.SubjectName],
                   homeworkMap := acc.homeworkMap.set a.SubjectName a.Homeworks }
      simp only [statusSubjects, ha, if_true, gt_iff_lt]
      refine ⟨?_, ?_, ?_, ?_⟩
      · rw [h1]; simp [ha]
      · rw [h2]; simp [ha0]
      · intro hn
        exact h3 (HomeworkMap.keys_set_nodup _ _ _ hn)
      · intro n
        rw [h4 n, List.reverse_cons, List.find?_append]
        cases t.reverse.find?
            (fun sj => decide (sj.SubjectName = n) && decide (0 < sj.Homeworks.length)) with
        | some sj => simp
        | none =>
          by_cases hn : a.SubjectName = n
          · simp [HomeworkMap.get?_set, hn, ha]
          · simp [HomeworkMap.get?_set, hn]
    · have ha0 : a.Homeworks = [] := by
        cases hh : a.Homeworks with
        | nil => rfl
        | cons x xs => rw [hh] at ha; simp at ha
      obtain ⟨h1, h2, h3, h4⟩ := ih
        { acc with incomplete := acc.incomplete ++ [a.SubjectName] }
      simp only [statusSubjects, ha, if_false, gt_iff_lt]
      refine ⟨?_, ?_, h3, ?_⟩
      · rw [h1]; simp [ha]
      · rw [h2]; simp [ha0]
      · intro n
        rw [h4 n, List.reverse_cons, List.find?_append]
        cases t.reverse.find?
            (fun sj => decide (sj.SubjectName = n) && decide (0 < sj.Homeworks.length)) with
        | some sj => simp
        | none => simp [ha]

/-- The outer loop of `GetHomeworkStatus` processes the Subjects of the first
Day of the given name. -/
theorem statusDays_eq (dayName : String) (schedule : List DaySchedule) :
    statusDays dayName schedule
      = statusSubjects (subjectsOfFirstDay dayName schedule) Status.empty := by
  induction schedule with
  | nil => simp [statusDays, subjectsOfFirstDay, statusSubjects]
  | cons a t ih =>
    by_cases ha : a.DayName = dayName
    · simp [statusDays, subjectsOfFirstDay, ha]
    · simpa [statusDays, subjectsOfFirstDay, ha] using ih

theorem HomeworkMap.mem_keys_iff (m : HomeworkMap) (n : String) :
    n ∈ m.map Prod.fst ↔ (m.get? n).isSome = true := by
  induction m with
  | nil => simp [HomeworkMap.get?]
  | cons a t ih =>
    obtain ⟨k, v⟩ := a
    by_cases hk : k = n
    · simp [HomeworkMap.get?, hk]
    · have hk2 : ¬ n = k := fun h => hk h.symm
      simp [HomeworkMap.get?, hk, hk2, ih]

/-- C6. When the handle resolves to a record, `GetHomeworkStatus` returns no
error and the reference result for the Subjects of the first Day named
`dayName` (no Subject if there is no such Day): `completed` lists in order
the names of those with a Submission, `incomplete` in order the names of
those with none, the map has one entry per completed name and no other, and
the entry of a name holds the Submissions of the Subject of that name (of
the last one with Submissions, should several Subjects of the Day share the
name and differ).  Without a Day of that name all three are empty. -/
theorem GetHomeworkStatus_reference (s : Store) (studentUsername dayName : String)
    (student : User)
    (h : findOne (byUsername (TrimPrefix studentUsername "@")) s = some student) :
    ∃ st, GetHomeworkStatus s studentUsername dayName = Except.ok st ∧
      st.completed
        = ((subjectsOfFirstDay dayName student.Schedule).filter
            (fun sj => decide (0 < sj.Homeworks.length))).map (fun sj => sj.SubjectName) ∧
      st.incomplete
        = ((subjectsOfFirstDay dayName student.Schedule).filter
            (fun sj => decide (sj.Homeworks.length = 0))).map (fun sj => sj.SubjectName) ∧
      (st.homeworkMap.map Prod.fst).Nodup ∧
      (∀ n, n ∈ st.homeworkMap.map Prod.fst ↔ n ∈ st.completed) ∧
      (∀ n, st.homeworkMap.get? n
        = ((subjectsOfFirstDay dayName student.Schedule).reverse.find?
            (fun sj => decide (sj.SubjectName = n) && decide (0 < sj.Homeworks.length))).map
              (fun sj => sj.Homeworks)) ∧
      (∀ sj ∈ subjectsOfFirstDay dayName student.Schedule, 0 < sj.Homeworks.length →
        (∀ sj' ∈ subjectsOfFirstDay dayName student.Schedule,
          sj'.SubjectName = sj.SubjectName → 0 < sj'.Homeworks.length →
            sj'.Homeworks = sj.Homeworks) →
        st.homeworkMap.get? sj.SubjectName = some sj.Homeworks) ∧
      (student.Schedule.find? (fun d => decide (d.DayName = dayName)) = none →
        st = Status.empty) := by
  obtain ⟨h1, h2, h3, h4⟩ :=
    statusSubjects_spec (subjectsOfFirstDay dayName student.Schedule) Status.empty
  have hmap : ∀ n, (statusSubjects (subjectsOfFirstDay dayName student.Schedule)
      Status.empty).homeworkMap.get? n
        = ((subjectsOfFirstDay dayName student.Schedule).reverse.find?
            (fun sj => decide (sj.SubjectName = n) && decide (0 < sj.Homeworks.length))).map
              (fun sj => sj.Homeworks) := by
    intro n
    rw [h4 n]
    cases (subjectsOfFirstDay dayName student.Schedule).reverse.find?
        (fun sj => decide (sj.SubjectName = n) && decide (0 < sj.Homeworks.length)) with
    | some sj => rfl
    | none => rfl
  refine ⟨statusDays dayName student.Schedule, by simp [GetHomeworkStatus, h], ?_⟩
  rw [statusDays_eq]
  refine ⟨by simpa [Status.empty] using h1, by simpa [Status.empty] using h2,
    h3 (by simp [Status.empty]), ?_, hmap, ?_, ?_⟩
  · intro n
    rw [HomeworkMap.mem_keys_iff, hmap n, h1]
    simp only [Status.empty, List.nil_append, Option.isSome_map', List.find?_isSome,
      List.mem_reverse, Bool.and_eq_true, decide_eq_true_eq, List.mem_map, List.mem_filter]
    constructor
    · rintro ⟨sj, hm, hn, hl⟩
      exact ⟨sj, ⟨hm, hl⟩, hn⟩
    · rintro ⟨sj, ⟨hm, hl⟩, hn⟩
      exact ⟨sj, hm, hn, hl⟩
  · intro sj hsj hlen hsame
    rw [hmap]
    cases hf : (subjectsOfFirstDay dayName student.Schedule).reverse.find?
        (fun x => decide (x.SubjectName = sj.SubjectName) && decide (0 < x.Homeworks.length)) with
    | none =>
      have := List.find?_eq_none.1 hf sj (by simpa using hsj)
      simp [hlen] at this
    | some sj' =>
      have hp := List.find?_some hf
      have hm := List.mem_of_find?_eq_some hf
      simp only [Bool.and_eq_true, decide_eq_true_eq] at hp
      simp [hsame sj' (by simpa using hm) hp.1 hp.2]
  · intro hnone
    simp [subjectsOfFirstDay, hnone, statusSubjects]

/-- C6 at the input of the specification: Subjects `A` (one Submission) and
`B` (none) give completed = [A], incomplete = [B] and a map whose only entry
is that of `A`, holding the one Submission. -/
theorem GetHomeworkStatus_reference_witness :
    ∃ st, GetHomeworkStatus abStore "@student" "Monday" = Except.ok st ∧
      st.completed = ["A"] ∧ st.incomplete = ["B"] ∧
      (∀ n, n ∈ st.homeworkMap.map Prod.fst ↔ n ∈ ["A"]) ∧
      st.homeworkMap.get? "A"
        = some [{ Photo := [7], UploadedAt := 3, ID := "1-Monday-A-3", UploadedBy := "1" }] := by
  obtain ⟨st, h0, h1, h2, _, h4, h5, _, _⟩ :=
    GetHomeworkStatus_reference abStore "@student" "Monday"
      { UserID := "1", Username := "student", CreatedAt := 0, UserContacts := none,
        IsParent := false,
        Schedule := [{ DayName := "Monday",
                       Subjects := [{ SubjectName := "A",
                                      Homeworks := [{ Photo := [7], UploadedAt := 3,
                                                      ID := "1-Monday-A-3",
                                                      UploadedBy := "1" }] },
                                    { SubjectName := "B", Homeworks := [] }] }] }
      (by rfl)
  refine ⟨st, h0, ?_, ?_, ?_, ?_⟩
  · rw [h1]; rfl
  · rw [h2]; rfl
  · intro n; rw [h4 n, h1]; rfl
  · rw [h5]; rfl

/-! ## Erasing a day -/

theorem clearDay_DayName (dayName : String) (d : DaySchedule) :
    (clearDay dayName d).DayName = d.DayName := by
  unfold clearDay
  split <;> rfl

theorem clearDay_names (dayName : String) (d : DaySchedule) :
    (clearDay dayName d).Subjects.map (fun sj => sj.SubjectName)
      = d.Subjects.map (fun sj => sj.SubjectName) := by
  unfold clearDay
  split
  · simp [clearSubject, Function.comp_def]
  · rfl

theorem dayFilter_eq_false_iff (userID dayName : String) (u : User) :
    dayFilter userID dayName u = false ↔
      (u.UserID = userID → ∀ d ∈ u.Schedule, d.DayName ≠ dayName) := by
  simp only [dayFilter, Bool.and_eq_false_iff, decide_eq_false_iff_not, List.any_eq_false,
    decide_eq_true_eq]
  constructor
  · intro h hu d hd
    rcases h with h | h
    · exact absurd hu h
    · exact h d hd
  · intro h
    by_cases hu : u.UserID = userID
    · exact Or.inr (h hu)
    · exact Or.inl hu

/-- C9. `EraseHomeworkForOldDay` returns no error.  If no record of the
user has a Day named `dayName` the collection is unchanged.  Otherwise one
record is rewritten, the first record of the user with such a Day, and in
it: the sequence of Days with their names and their sequences of Subject
names is as before, every Subject of every Day named `dayName` has an empty
Submission list, and every Day with another name is as before; the other
fields of the record and all other records are unchanged. -/
theorem EraseHomeworkForOldDay_effect (s : Store) (userID dayName : String) :
    (EraseHomeworkForOldDay s userID dayName).1 = none ∧
    ((∀ u ∈ s, u.UserID = userID → ∀ d ∈ u.Schedule, d.DayName ≠ dayName) →
      (EraseHomeworkForOldDay s userID dayName).2 = s) ∧
    (∀ u, findOne (dayFilter userID dayName) s = some u →
      ∃ pre post u',
        s = pre ++ u :: post ∧
        (EraseHomeworkForOldDay s userID dayName).2 = pre ++ u' :: post ∧
        (∀ x ∈ pre, dayFilter userID dayName x = false) ∧
        u'.UserID = u.UserID ∧ u'.Username = u.Username ∧ u'.CreatedAt = u.CreatedAt ∧
        u'.UserContacts = u.UserContacts ∧ u'.IsParent = u.IsParent ∧
        u'.Schedule.map (fun d => (d.DayName, d.Subjects.map (fun sj => sj.SubjectName)))
          = u.Schedule.map (fun d => (d.DayName, d.Subjects.map (fun sj => sj.SubjectName))) ∧
        (∀ d' ∈ u'.Schedule, d'.DayName = dayName → ∀ sj' ∈ d'.Subjects, sj'.Homeworks = []) ∧
        List.Forall₂ (fun d d' => d.DayName ≠ dayName → d' = d) u.Schedule u'.Schedule) := by
  refine ⟨rfl, ?_, ?_⟩
  · intro h
    have hnone : findOne (dayFilter userID dayName) s = none := by
      rw [findOne_eq_none_iff]
      intro u hu
      exact (dayFilter_eq_false_iff userID dayName u).2 (h u hu)
    simp [EraseHomeworkForOldDay, updateOne_of_findOne_none _ hnone]
  · intro u hu
    obtain ⟨pre, post, h1, h2, _, h4⟩ := updateOne_of_findOne_some (eraseDay dayName) hu
    refine ⟨pre, post, eraseDay dayName u, h1, by simp [EraseHomeworkForOldDay, h4], h2,
      rfl, rfl, rfl, rfl, rfl, ?_, ?_, ?_⟩
    · simp [eraseDay, Function.comp_def, clearDay_DayName, clearDay_names]
    · intro d' hd' hn sj' hsj'
      simp only [eraseDay, List.mem_map] at hd'
      obtain ⟨d, _, rfl⟩ := hd'
      rw [clearDay_DayName] at hn
      simp only [clearDay, hn, if_true, List.mem_map] at hsj'
      obtain ⟨sj, _, rfl⟩ := hsj'
      rfl
    · simp only [eraseDay]
      rw [List.forall₂_map_right_iff, List.forall₂_same]
      intro d _ hn
      simp [clearDay, hn]

/-! ## Status after an erase -/

theorem statusSubjects_cleared (l : List Subject) (acc : Status) :
    statusSubjects (l.map clearSubject) acc
      = { acc with incomplete := acc.incomplete ++ l.map (fun sj => sj.SubjectName) } := by
  induction l generalizing acc with
  | nil => simp [statusSubjects]
  | cons a t ih => simp [statusSubjects, clearSubject, ih]

theorem subjectsOfFirstDay_eraseDay (dayName : String) (schedule : List DaySchedule) :
    subjectsOfFirstDay dayName (schedule.map (clearDay dayName))
      = (subjectsOfFirstDay dayName schedule).map clearSubject := by
  induction schedule with
  | nil => simp [subjectsOfFirstDay]
  | cons a t ih =>
    by_cases ha : a.DayName = dayName
    · simp [subjectsOfFirstDay, clearDay, ha]
    · simpa [subjectsOfFirstDay, clearDay, ha] using ih

theorem dayFilter_imp_byUserID (userID dayName : String) (x : User)
    (h : dayFilter userID dayName x = true) : byUserID userID x = true := by
  simp only [dayFilter, Bool.and_eq_true, decide_eq_true_eq] at h
  simp [byUserID, h.1]

/-- C10. Let the handle and the user id both resolve to the record `u`.
After `EraseHomeworkForOldDay` for that user and day, `GetHomeworkStatus` for
the handle and the same day returns no error, an empty completed list, an
empty map, and as incomplete list the names, in order, of all Subjects of
`u`'s Day of that name, whatever Submissions the Day held. -/
theorem GetHomeworkStatus_after_erase (s : Store) (userID studentUsername dayName : String)
    (u : User)
    (hname : findOne (byUsername (TrimPrefix studentUsername "@")) s = some u)
    (hid : findOne (byUserID userID) s = some u) :
    ∃ st, GetHomeworkStatus (EraseHomeworkForOldDay s userID dayName).2 studentUsername dayName
        = Except.ok st ∧
      st.completed = [] ∧ st.homeworkMap = [] ∧
      st.incomplete = (subjectsOfFirstDay dayName u.Schedule).map (fun sj => sj.SubjectName) := by
  have hread := findOne_updateOne_same_record (eraseDay dayName) hname hid
    (dayFilter_imp_byUserID userID dayName)
    (by simpa [byUsername, eraseDay] using (findOne_some_mem hname).2)
  by_cases hf : dayFilter userID dayName u = true
  · simp only [hf, if_true] at hread
    refine ⟨statusDays dayName (eraseDay dayName u).Schedule,
      by simp only [GetHomeworkStatus, EraseHomeworkForOldDay, hread], ?_⟩
    simp [statusDays_eq, eraseDay, subjectsOfFirstDay_eraseDay, statusSubjects_cleared,
      Status.empty]
  · have hf' : dayFilter userID dayName u = false := by simpa using hf
    simp only [hf', Bool.false_eq_true, if_false] at hread
    refine ⟨statusDays dayName u.Schedule,
      by simp only [GetHomeworkStatus, EraseHomeworkForOldDay, hread], ?_⟩
    have huid : u.UserID = userID := by simpa [byUserID] using (findOne_some_mem hid).2
    have hno := (dayFilter_eq_false_iff userID dayName u).1 hf' huid
    have hfind : u.Schedule.find? (fun d => decide (d.DayName = dayName)) = none := by
      rw [List.find?_eq_none]
      intro d hd
      simpa using hno d hd
    simp [statusDays_eq, subjectsOfFirstDay, hfind, statusSubjects, Status.empty]

/-- C10 at a concrete input: Monday of the student of `abStore`, whose
Subject `A` held a Submission, is erased; both Subjects are then reported
incomplete. -/
theorem GetHomeworkStatus_after_erase_witness :
    ∃ st, GetHomeworkStatus (EraseHomeworkForOldDay abStore "1" "Monday").2 "student" "Monday"
        = Except.ok st ∧
      st.completed = [] ∧ st.homeworkMap = [] ∧ st.incomplete = ["A", "B"] := by
  obtain ⟨st, h0, h1, h2, h3⟩ :=
    GetHomeworkStatus_after_erase abStore "1" "student" "Monday"
      { UserID := "1", Username := "student", CreatedAt := 0, UserContacts := none,
        IsParent := false,
        Schedule := [{ DayName := "Monday",
                       Subjects := [{ SubjectName := "A",
                                      Homeworks := [{ Photo := [7], UploadedAt := 3,
                                                      ID := "1-Monday-A-3",
                                                      UploadedBy := "1" }] },
                                    { SubjectName := "B", Homeworks := [] }] }] }
      (by rfl) (by rfl)
  exact ⟨st, h0, h1, h2, by rw [h3]; rfl⟩

end Mongo

/-! ## The update loop -/

namespace Updater

/-- C18, the code at an update without a message: the pass does not ignore
the update, it dereferences the nil `Message` and ends in a run-time panic. -/
theorem pollStep_nil_message : pollStep { Message := none } = PollAction.nilDereference := rfl

end Updater

/-! ## The scheduler loops -/

namespace Mongo

theorem Weekday_lt (t : Int) : Weekday t < 7 := by
  unfold Weekday
  omega

theorem Weekday_add_days (t k : Int) :
    Weekday (t + k * Day) = ((Weekday t + k) % 7).toNat := by
  unfold Weekday
  have h : (t + k * Day) / Day = t / Day + k := by
    rw [Int.add_mul_ediv_right _ _ (by decide : Day ≠ 0)]
  rw [h]
  omega

theorem WeekdayString_injective :
    ∀ i < 7, ∀ j < 7, WeekdayString i = WeekdayString j → i = j := by
  decide

/-- C16. From any reading `now` the summary loop computes the earliest
instant at or after `now` whose time of day is 21:00:00: it is not in the
past, less than 24 hours ahead, and no instant in between is a 21:00:00.
A reading taken after that fire time gives a later fire time, a whole
number of days after it, and exactly one day after it when the reading is
taken within 24 hours of the firing. -/
theorem nextSummary_spec (now : Int) :
    now ≤ nextSummary now ∧ nextSummary now - now < Day ∧
    nextSummary now % Day = summaryTime * Hour ∧
    (∀ x, now ≤ x → x % Day = summaryTime * Hour → nextSummary now ≤ x) ∧
    (∀ now', nextSummary now < now' →
      nextSummary now + Day ≤ nextSummary now' ∧
      (nextSummary now' - nextSummary now) % Day = 0 ∧
      (now' ≤ nextSummary now + Day → nextSummary now' = nextSummary now + Day)) := by
  simp only [nextSummary, startOfDay, summaryTime, Hour, Day]
  refine ⟨?_, ?_, ?_, ?_, ?_⟩
  · split <;> omega
  · split <;> omega
  · split <;> omega
  · intro x hx hm
    split <;> omega
  · intro now' h
    refine ⟨?_, ?_, ?_⟩
    · split at h <;> split <;> omega
    · split <;> split <;> omega
    · intro h2
      split at h <;> split at h2 <;> split <;> omega

/-- On a clock without changes, `t` being its reading: the weekday the
eraser loop clears is the weekday of the date five days before `t`, which is
the weekday two days after `t`; it differs from the weekday of `t` and from
the weekday of `t + 24h`. -/
theorem oldDay_fixed_clock (t : Int) :
    oldDay t = WeekdayString (Weekday (t - 5 * Day)) ∧
    oldDay t = WeekdayString (Weekday (t + 2 * Day)) ∧
    oldDay t ≠ WeekdayString (Weekday t) ∧
    oldDay t ≠ Handlers.getNextDayName t := by
  have h5 : Weekday (AddDate t (-5)) = ((Weekday t + (-5 : Int)) % 7).toNat := by
    unfold AddDate
    exact Weekday_add_days t (-5)
  have h2 : Weekday (t + 2 * Day) = ((Weekday t + (2 : Int)) % 7).toNat :=
    Weekday_add_days t 2
  have h1 : Weekday (t + 24 * Hour) = ((Weekday t + (1 : Int)) % 7).toNat := by
    have : t + 24 * Hour = t + 1 * Day := by simp [Hour, Day]
    rw [this]
    exact Weekday_add_days t 1
  have hlt := Weekday_lt t
  refine ⟨?_, ?_, ?_, ?_⟩
  · simp only [oldDay, AddDate]
    congr 2
  · simp only [oldDay]
    rw [h5, h2]
    congr 1
    omega
  · intro h
    simp only [oldDay] at h
    have := WeekdayString_injective _ (Weekday_lt _) _ hlt h
    rw [h5] at this
    omega
  · intro h
    simp only [oldDay, Handlers.getNextDayName] at h
    have := WeekdayString_injective _ (Weekday_lt _) _ (Weekday_lt _) h
    rw [h5, h1] at this
    omega

theorem wallClock_dateIn_fixedZone (c w : Int) :
    wallClock (fixedZone c) (dateIn (fixedZone c) w) = w := by
  unfold wallClock dateIn fixedZone
  split <;> omega

theorem oldDayIn_fixedZone (c t : Int) : oldDayIn (fixedZone c) t = oldDay (t + c) := by
  unfold oldDayIn AddDateIn
  rw [wallClock_dateIn_fixedZone]
  rfl

theorem getNextDayNameIn_fixedZone (c t : Int) :
    Handlers.getNextDayNameIn (fixedZone c) t = Handlers.getNextDayName (t + c) := by
  unfold Handlers.getNextDayNameIn Handlers.getNextDayName wallClock fixedZone
  congr 2
  omega

/-- C17, refuted as stated: in New York on Saturday 7 March 2026 at 23:30,
the night before the clocks go forward, a pass of the eraser loop (the loop
makes one when the process starts) passes "Monday", the weekday five calendar
days earlier, to `EraseHomeworkForOldDay`; the instant 24 hours later reads
Monday 00:30, so "Monday" is also the day `getNextDayName` gives to a photo
received at that instant. -/
theorem oldDayIn_clears_targeted_day :
    WeekdayString (Weekday (wallClock newYork saturdayNight)) = "Saturday" ∧
      WeekdayString (Weekday (wallClock newYork saturdayNight - 5 * Day)) = "Monday" ∧
      wallClock newYork (saturdayNight + 24 * Hour) - wallClock newYork saturdayNight
        = 25 * Hour ∧
      WeekdayString (Weekday (wallClock newYork (saturdayNight + 24 * Hour))) = "Monday" ∧
      oldDayIn newYork saturdayNight = "Monday" ∧
      Handlers.getNextDayNameIn newYork saturdayNight = "Monday" ∧
      oldDayIn newYork saturdayNight = Handlers.getNextDayNameIn newYork saturdayNight := by
  decide

/-- C17. At a firing instant `t` such that `AddDate(0, 0, -5)` lands on the
reading of `t` moved back five calendar days (it does unless a clock change
skipped that reading) and the zone has the same offset at `t` and 24 hours
later: the weekday the eraser loop clears is the weekday of the date five
days before that of `t`, which is the weekday two days after it; it differs
from the weekday of `t` and from the weekday of `t + 24h`, the day
`getNextDayName` targets at `t`. -/
theorem oldDayIn_spec (zone : Zone) (t : Int)
    (hdate : wallClock zone (AddDateIn zone t (-5)) = wallClock zone t - 5 * Day)
    (hday : zone (t + 24 * Hour) = zone t) :
    oldDayIn zone t = WeekdayString (Weekday (wallClock zone t - 5 * Day)) ∧
    oldDayIn zone t = WeekdayString (Weekday (wallClock zone t + 2 * Day)) ∧
    oldDayIn zone t ≠ WeekdayString (Weekday (wallClock zone t)) ∧
    oldDayIn zone t ≠ WeekdayString (Weekday (wallClock zone (t + 24 * Hour))) ∧
    Handlers.getNextDayNameIn zone t
      = WeekdayString (Weekday (wallClock zone (t + 24 * Hour))) ∧
    oldDayIn zone t ≠ Handlers.getNextDayNameIn zone t := by
  have hold : oldDayIn zone t = oldDay (wallClock zone t) := by
    unfold oldDayIn
    rw [hdate]
    unfold oldDay AddDate
    congr 2
  have hnext : Handlers.getNextDayNameIn zone t
      = Handlers.getNextDayName (wallClock zone t) := by
    unfold Handlers.getNextDayNameIn Handlers.getNextDayName wallClock
    rw [hday]
    congr 2
    omega
  obtain ⟨h1, h2, h3, h4⟩ := oldDay_fixed_clock (wallClock zone t)
  refine ⟨?_, ?_, ?_, ?_, rfl, ?_⟩
  · rw [hold]; exact h1
  · rw [hold]; exact h2
  · rw [hold]; exact h3
  · rw [hold]
    have e : WeekdayString (Weekday (wallClock zone (t + 24 * Hour)))
        = Handlers.getNextDayNameIn zone t := rfl
    rw [e, hnext]; exact h4
  · rw [hold, hnext]; exact h4

/-- C17 at a concrete input: the first midnight firing in New York after
the clocks went forward, Monday 9 March 2026.  Five calendar days earlier
the zone had another offset. -/
theorem oldDayIn_spec_witness :
    newYork (mondayMidnight - 5 * Day) ≠ newYork mondayMidnight ∧
      (oldDayIn newYork mondayMidnight
          = WeekdayString (Weekday (wallClock newYork mondayMidnight - 5 * Day)) ∧
        oldDayIn newYork mondayMidnight
          = WeekdayString (Weekday (wallClock newYork mondayMidnight + 2 * Day)) ∧
        oldDayIn newYork mondayMidnight
          ≠ WeekdayString (Weekday (wallClock newYork mondayMidnight)) ∧
        oldDayIn newYork mondayMidnight
          ≠ WeekdayString (Weekday (wallClock newYork (mondayMidnight + 24 * Hour))) ∧
        Handlers.getNextDayNameIn newYork mondayMidnight
          = WeekdayString (Weekday (wallClock newYork (mondayMidnight + 24 * Hour))) ∧
        oldDayIn newYork mondayMidnight
          ≠ Handlers.getNextDayNameIn newYork mondayMidnight) :=
  ⟨by decide, oldDayIn_spec newYork mondayMidnight (by decide) (by decide)⟩

/-- A reading skipped by a clock change: in Havana the clocks go from 00:00
to 01:00 on Sunday 8 March 2026.  At the midnight firing of Friday 13 March
the reading five calendar days earlier, Sunday 00:00:01, was never shown;
`AddDate` gives Saturday 23:00:01, the loop clears "Saturday" and not
"Sunday", and Saturday is the day a photo received at that instant is
recorded under. -/
theorem oldDayIn_skipped_midnight :
    WeekdayString (Weekday (wallClock havana fridayMidnight)) = "Friday" ∧
      WeekdayString (Weekday (wallClock havana fridayMidnight - 5 * Day)) = "Sunday" ∧
      havana (fridayMidnight + 24 * Hour) = havana fridayMidnight ∧
      wallClock havana (AddDateIn havana fridayMidnight (-5))
        = wallClock havana fridayMidnight - 5 * Day - Hour ∧
      oldDayIn havana fridayMidnight = "Saturday" ∧
      Handlers.getNextDayNameIn havana fridayMidnight = "Saturday" := by
  decide

end Mongo

/-! ## User initialisation in the handler -/

namespace Handlers

open Mongo

theorem InitializeScheduleWith_error_iff (faults : Faults) (s : Store) (userID : String) :
    (InitializeScheduleWith faults s userID).1 = some Err.driver ↔
      faults.update = true ∧
        ¬ (faults.find = false ∧
          ∃ u, findOne (byUserID userID) s = some u ∧ 0 < u.Schedule.length) := by
  unfold InitializeScheduleWith
  by_cases hf : faults.find = true
  · by_cases hu : faults.update = true
    · simp [hf, hu]
    · simp [hf, hu]
  · cases hfind : findOne (byUserID userID) s with
    | none =>
      by_cases hu : faults.update = true
      · simp [hf, hu]
      · simp [hf, hu]
    | some u =>
      by_cases hl : 0 < u.Schedule.length
      · simp [hf, hl]
      · by_cases hu : faults.update = true
        · simp [hf, hl, hu]
        · simp [hf, hl, hu]

theorem InitializeScheduleWith_ok (faults : Faults) (s : Store) (userID : String)
    (h : faults.update = false) : (InitializeScheduleWith faults s userID).1 = none := by
  unfold InitializeScheduleWith
  split
  · split
    · rfl
    · simp [h]
  · simp [h]

theorem ensureUserInitialized_eq (createFaults initFaults : Faults) (now : Int) (s : Store)
    (userID username : String) :
    ensureUserInitialized createFaults initFaults now s userID username
      = InitializeScheduleWith initFaults
          (CreateUserWith createFaults now s userID username).2 userID := by
  unfold ensureUserInitialized
  split <;> simp_all

/-- C13, amended. `ensureUserInitialized` propagates no failure of
`CreateUser`, whichever of its store calls fails: its result is that of the
schedule initialisation alone, run on the store `CreateUser` left.  It
returns an error exactly when the `UpdateOne` of `InitializeSchedule` fails
(the call being made because the lookup failed or found no record with a
schedule), and none when that update does not fail. -/
theorem ensureUserInitialized_result (createFaults initFaults : Faults) (now : Int) (s : Store)
    (userID username : String) :
    ensureUserInitialized createFaults initFaults now s userID username
        = InitializeScheduleWith initFaults
            (CreateUserWith createFaults now s userID username).2 userID ∧
      ((ensureUserInitialized createFaults initFaults now s userID username).1
          = some Err.driver ↔
        initFaults.update = true ∧
          ¬ (initFaults.find = false ∧
            ∃ u, findOne (byUserID userID)
                (CreateUserWith createFaults now s userID username).2 = some u ∧
              0 < u.Schedule.length)) ∧
      (initFaults.update = false →
        (ensureUserInitialized createFaults initFaults now s userID username).1 = none) := by
  rw [ensureUserInitialized_eq]
  exact ⟨rfl, InitializeScheduleWith_error_iff _ _ _, InitializeScheduleWith_ok _ _ _⟩

/-- C13, refuted as stated.  On the empty store, when the insertion of the
user record fails, and likewise when the existence check fails, `CreateUser`
returns an error and `ensureUserInitialized` returns none: the schedule
initialisation succeeds and the failure is swallowed. -/
theorem ensureUserInitialized_swallows_creation_failure :
    CreateUserWith { find := false, update := false, insert := true } 0 [] "42" "alice"
        = (some Err.driver, []) ∧
      (ensureUserInitialized { find := false, update := false, insert := true } noFaults
        0 [] "42" "alice").1 = none ∧
      CreateUserWith { find := true, update := false, insert := false } 0 [] "42" "alice"
        = (some Err.driver, []) ∧
      (ensureUserInitialized { find := true, update := false, insert := false } noFaults
        0 [] "42" "alice").1 = none := by
  decide

end Handlers

/-! ## The identifier of a submission -/

namespace Mongo

theorem digitChar_spec : ∀ k < 10, (Nat.digitChar k).toNat - 48 = k ∧ Nat.digitChar k ≠ '-' := by
  decide

/-- The decimal digits `Nat.toDigitsCore` puts in front of `ds`: read back
as a numeral they give `n`, and none of them is a hyphen. -/
theorem toDigitsCore_spec (fuel : Nat) : ∀ (n : Nat) (ds : List Char), n < fuel →
    ∃ pre, Nat.toDigitsCore 10 fuel n ds = pre ++ ds ∧
      pre.foldl (fun a c => 10 * a + (c.toNat - 48)) 0 = n ∧ ∀ c ∈ pre, c ≠ '-' := by
  induction fuel with
  | zero => intro n ds h; omega
  | succ fuel ih =>
    intro n ds h
    have hd := digitChar_spec (n % 10) (Nat.mod_lt n (by decide))
    by_cases h0 : n / 10 = 0
    · refine ⟨[Nat.digitChar (n % 10)], by simp [Nat.toDigitsCore, h0], ?_, ?_⟩
      · simp only [List.foldl_cons, List.foldl_nil, hd.1]
        omega
      · intro c hc
        rw [List.mem_singleton] at hc
        rw [hc]
        exact hd.2
    · obtain ⟨pre, h1, h2, h3⟩ := ih (n / 10) (Nat.digitChar (n % 10) :: ds) (by omega)
      refine ⟨pre ++ [Nat.digitChar (n % 10)], by simp [Nat.toDigitsCore, h0, h1], ?_, ?_⟩
      · simp only [List.foldl_append, List.foldl_cons, List.foldl_nil, h2, hd.1]
        omega
      · intro c hc
        rcases List.mem_append.mp hc with hc | hc
        · exact h3 c hc
        · rw [List.mem_singleton] at hc
          rw [hc]
          exact hd.2

theorem repr_data_spec (n : Nat) :
    (Nat.repr n).data.foldl (fun a c => 10 * a + (c.toNat - 48)) 0 = n ∧
      ∀ c ∈ (Nat.repr n).data, c ≠ '-' := by
  obtain ⟨pre, h1, h2, h3⟩ := toDigitsCore_spec (n + 1) n [] (by omega)
  have hd : (Nat.repr n).data = pre := by
    show Nat.toDigits 10 n = pre
    simpa [Nat.toDigits] using h1
  rw [hd]
  exact ⟨h2, h3⟩

theorem repr_data_injective {n m : Nat} (h : (Nat.repr n).data = (Nat.repr m).data) : n = m := by
  have hn := (repr_data_spec n).1
  rw [h, (repr_data_spec m).1] at hn
  exact hn.symm

/-- Two lists cut at the first occurrence of a separator agree on both sides. -/
theorem split_at_first {x : Char} : ∀ {a a' b b' : List Char}, x ∉ a → x ∉ a' →
    a ++ x :: b = a' ++ x :: b' → a = a' ∧ b = b' := by
  intro a
  induction a with
  | nil =>
    intro a' b b' _ ha' h
    cases a' with
    | nil => simpa using h
    | cons c t =>
      simp only [List.nil_append, List.cons_append, List.cons.injEq] at h
      exact absurd (h.1 ▸ List.mem_cons_self c t) ha'
  | cons c t ih =>
    intro a' b b' ha ha' h
    cases a' with
    | nil =>
      simp only [List.nil_append, List.cons_append, List.cons.injEq] at h
      exact absurd (h.1 ▸ List.mem_cons_self c t) ha
    | cons c' t' =>
      simp only [List.cons_append, List.cons.injEq] at h
      obtain ⟨h1, h2⟩ := ih (fun hx => ha (List.mem_cons_of_mem _ hx))
        (fun hx => ha' (List.mem_cons_of_mem _ hx)) h.2
      exact ⟨by rw [h.1, h1], h2⟩

/-- Two lists cut at the last occurrence of a separator agree on both sides. -/
theorem split_at_last {x : Char} {a a' b b' : List Char} (hb : x ∉ b) (hb' : x ∉ b')
    (h : a ++ x :: b = a' ++ x :: b') : a = a' ∧ b = b' := by
  have hr : b.reverse ++ x :: a.reverse = b'.reverse ++ x :: a'.reverse := by
    have := congrArg List.reverse h
    simpa using this
  obtain ⟨h1, h2⟩ := split_at_first (by simpa using hb) (by simpa using hb') hr
  exact ⟨List.reverse_injective h2, List.reverse_injective h1⟩

theorem weekdayNames_no_hyphen : ∀ d ∈ weekdayNames, '-' ∉ d.data := by
  decide

theorem homeworkID_data (userID dayName subjectName : String) (unix : Nat) :
    (homeworkID userID dayName subjectName (unix : Int)).data
      = userID.data ++ '-' :: (dayName.data ++ '-' ::
          (subjectName.data ++ '-' :: (Nat.repr unix).data)) := by
  have h : toString (unix : Int) = Nat.repr unix := rfl
  have hs : "-".data = ['-'] := rfl
  simp [homeworkID, h, hs, String.data_append]

/-- C15. The identifier `SaveHomework` returns is
`userID-dayName-subjectName-seconds` whatever the store and the photo, and
on the inputs the handler supplies (a user id that is the decimal rendering
of a non-negative integer, a weekday name, any subject string, a
non-negative second count) equal identifiers have equal components. -/
theorem homeworkID_injective :
    (∀ (rx : RegexI) (now uploadedAt : Int) (s s' : Store)
        (userID dayName subjectName id : String) (photoData : List UInt8),
      SaveHomework rx now uploadedAt s userID dayName subjectName photoData
          = (Except.ok id, s') →
        id = homeworkID userID dayName subjectName now) ∧
    (∀ (u u' t t' : Nat) (d d' sj sj' : String), d ∈ weekdayNames → d' ∈ weekdayNames →
      homeworkID (toString u) d sj (t : Int) = homeworkID (toString u') d' sj' (t' : Int) →
        u = u' ∧ d = d' ∧ sj = sj' ∧ t = t') := by
  constructor
  · intro rx now uploadedAt s s' userID dayName subjectName id photoData h
    unfold SaveHomework at h
    cases hrx : rx subjectName with
    | none => simp [hrx] at h
    | some p =>
      simp only [hrx] at h
      split at h
      · simp at h
      · simp only [Prod.mk.injEq, Except.ok.injEq] at h
        exact h.1.symm
  · intro u u' t t' d d' sj sj' hd hd' h
    have hdata := congrArg String.data h
    rw [homeworkID_data, homeworkID_data] at hdata
    have hu : toString u = Nat.repr u := rfl
    have hu' : toString u' = Nat.repr u' := rfl
    rw [hu, hu'] at hdata
    obtain ⟨h1, hrest⟩ := split_at_first
      (fun hx => (repr_data_spec u).2 _ hx rfl) (fun hx => (repr_data_spec u').2 _ hx rfl) hdata
    obtain ⟨h2, hrest2⟩ := split_at_first (weekdayNames_no_hyphen d hd)
      (weekdayNames_no_hyphen d' hd') hrest
    obtain ⟨h3, h4⟩ := split_at_last
      (fun hx => (repr_data_spec t).2 _ hx rfl) (fun hx => (repr_data_spec t').2 _ hx rfl) hrest2
    exact ⟨repr_data_injective h1, String.ext h2, String.ext h3, repr_data_injective h4⟩

end Mongo

/-! ## Subjects of the same name in reachable stores -/

namespace Mongo

theorem schedules_empty : ∀ d ∈ schedules, ∀ sj ∈ d.Subjects, sj.Homeworks = [] := by
  decide

theorem HomonymsAgree_of_empty {d : DaySchedule} (h : ∀ sj ∈ d.Subjects, sj.Homeworks = []) :
    HomonymsAgree d := by
  intro sj hsj sj' hsj' _
  rw [h sj hsj, h sj' hsj']

theorem HomonymsAgree_pushDay (p : String → Bool) (dayName : String) (hw : Homework)
    {d : DaySchedule} (h : HomonymsAgree d) : HomonymsAgree (pushDay p dayName hw d) := by
  unfold pushDay
  split
  · intro sj hsj sj' hsj' hn
    simp only [List.mem_map] at hsj hsj'
    obtain ⟨a, ha, rfl⟩ := hsj
    obtain ⟨b, hb, rfl⟩ := hsj'
    rw [pushSubject_SubjectName, pushSubject_SubjectName] at hn
    have hab := h a ha b hb hn
    unfold pushSubject
    rw [hn]
    split
    · simp [hab]
    · exact hab
  · exact h

theorem HomonymsAgree_clearDay (dayName : String) {d : DaySchedule} (h : HomonymsAgree d) :
    HomonymsAgree (clearDay dayName d) := by
  unfold clearDay
  split
  · apply HomonymsAgree_of_empty
    intro sj hsj
    simp only [List.mem_map] at hsj
    obtain ⟨a, _, rfl⟩ := hsj
    rfl
  · exact h

/-- An update that keeps a property of records keeps it of the collection. -/
theorem updateOne_preserves {P : User → Prop} (f : User → Bool) (g : User → User)
    (hg : ∀ u, P u → P (g u)) (s : Store) (h : ∀ u ∈ s, P u) :
    ∀ u ∈ (updateOne f g s).1, P u := by
  induction s with
  | nil => simp [updateOne]
  | cons a t ih =>
    intro u hu
    by_cases ha : f a = true
    · have he : (updateOne f g (a :: t)).1 = g a :: t := by simp [updateOne, ha]
      rw [he] at hu
      rcases List.mem_cons.mp hu with hu | hu
      · rw [hu]
        exact hg a (h a (by simp))
      · exact h u (by simp [hu])
    · have he : (updateOne f g (a :: t)).1 = a :: (updateOne f g t).1 := by
        simp [updateOne, ha]
      rw [he] at hu
      rcases List.mem_cons.mp hu with hu | hu
      · rw [hu]
        exact h a (by simp)
      · exact ih (fun x hx => h x (by simp [hx])) u hu

theorem append_preserves {P : User → Prop} (s : Store) (u : User) (h : ∀ x ∈ s, P x)
    (hu : P u) : ∀ x ∈ s ++ [u], P x := by
  intro x hx
  rcases List.mem_append.mp hx with hx | hx
  · exact h x hx
  · rw [List.mem_singleton] at hx
    rw [hx]
    exact hu

/-- In every reachable store, Subjects of one Day that share a name hold the
same Submissions. -/
theorem Reachable_agree {rx : RegexI} {s : Store} (h : Reachable rx s) :
    ∀ u ∈ s, ∀ d ∈ u.Schedule, HomonymsAgree d := by
  have htemplate : ∀ d ∈ schedules, HomonymsAgree d :=
    fun d hd => HomonymsAgree_of_empty (schedules_empty d hd)
  induction h with
  | empty => simp
  | createUser now s userID username _ ih =>
    unfold CreateUser
    split
    · split
      · refine updateOne_preserves _ _ ?_ s ih
        intro u hu
        exact hu
      · exact ih
    · exact append_preserves s _ ih (by simp)
  | initializeSchedule s userID _ ih =>
    have hup : ∀ u ∈ upsertOne (byUserID userID) setSchedule (upsertedUser userID) s,
        ∀ d ∈ u.Schedule, HomonymsAgree d := by
      unfold upsertOne
      split
      · exact append_preserves s _ ih htemplate
      · refine updateOne_preserves _ _ ?_ s ih
        intro u _
        exact htemplate
    unfold InitializeSchedule
    split
    · split
      · exact ih
      · exact hup
    · exact hup
  | saveHomework now uploadedAt s userID dayName subjectName photoData _ ih =>
    simp only [SaveHomework]
    split
    · exact ih
    · split
      · exact ih
      · refine updateOne_preserves _ _ ?_ s ih
        intro u hu d hd
        simp only [pushHomework, List.mem_map] at hd
        obtain ⟨d0, hd0, rfl⟩ := hd
        exact HomonymsAgree_pushDay _ _ _ (hu d0 hd0)
  | addStudentContact s parentUserID studentUsername _ ih =>
    unfold AddStudentContact
    split
    · exact ih
    · split
      · exact ih
      · split
        · exact ih
        · refine updateOne_preserves _ _ ?_ s ih
          intro u hu
          exact hu
  | eraseHomeworkForOldDay s userID dayName _ ih =>
    unfold EraseHomeworkForOldDay
    refine updateOne_preserves _ _ ?_ s ih
    intro u hu d hd
    simp only [eraseDay, List.mem_map] at hd
    obtain ⟨d0, hd0, rfl⟩ := hd
    exact HomonymsAgree_clearDay _ (hu d0 hd0)

theorem subjectsOfFirstDay_agree (dayName : String) (schedule : List DaySchedule)
    (h : ∀ d ∈ schedule, HomonymsAgree d) :
    ∀ sj ∈ subjectsOfFirstDay dayName schedule, ∀ sj' ∈ subjectsOfFirstDay dayName schedule,
      sj.SubjectName = sj'.SubjectName → sj.Homeworks = sj'.Homeworks := by
  unfold subjectsOfFirstDay
  cases hf : schedule.find? (fun d => decide (d.DayName = dayName)) with
  | none => simp
  | some d => exact h d (List.mem_of_find?_eq_some hf)

/-- C19. In every store reachable from the empty one by `CreateUser`,
`InitializeSchedule`, `SaveHomework`, `AddStudentContact` and
`EraseHomeworkForOldDay` calls, two Subjects of the same Day of a record
that bear the same name hold the same Submissions.  Hence, for a handle that
resolves to a record, `GetHomeworkStatus` lists no name both as completed
and as incomplete, and the map entry of a name is the Submission list of
every Subject of that Day with that name. -/
theorem Reachable_homonyms_agree (rx : RegexI) (s : Store) (h : Reachable rx s) :
    (∀ u ∈ s, ∀ d ∈ u.Schedule, ∀ sj ∈ d.Subjects, ∀ sj' ∈ d.Subjects,
      sj.SubjectName = sj'.SubjectName → sj.Homeworks = sj'.Homeworks) ∧
    (∀ (studentUsername dayName : String) (student : User),
      findOne (byUsername (TrimPrefix studentUsername "@")) s = some student →
      ∃ st, GetHomeworkStatus s studentUsername dayName = Except.ok st ∧
        (∀ n, n ∈ st.completed → n ∉ st.incomplete) ∧
        (∀ sj ∈ subjectsOfFirstDay dayName student.Schedule, ∀ hs,
          st.homeworkMap.get? sj.SubjectName = some hs → hs = sj.Homeworks)) := by
  have hagree := Reachable_agree h
  refine ⟨hagree, ?_⟩
  intro studentUsername dayName student hfind
  have hsub := subjectsOfFirstDay_agree dayName student.Schedule
    (hagree student (findOne_some_mem hfind).1)
  obtain ⟨h1, h2, _, h4⟩ :=
    statusSubjects_spec (subjectsOfFirstDay dayName student.Schedule) Status.empty
  refine ⟨statusDays dayName student.Schedule, by simp [GetHomeworkStatus, hfind], ?_, ?_⟩
  · intro n hc hi
    rw [statusDays_eq, h1] at hc
    rw [statusDays_eq, h2] at hi
    simp only [Status.empty, List.nil_append, List.mem_map, List.mem_filter,
      decide_eq_true_eq] at hc hi
    obtain ⟨a, ⟨ha, hla⟩, hna⟩ := hc
    obtain ⟨b, ⟨hb, hlb⟩, hnb⟩ := hi
    have := hsub a ha b hb (by rw [hna, hnb])
    rw [this] at hla
    omega
  · intro sj hsj hs hget
    rw [statusDays_eq, h4] at hget
    cases hf : (subjectsOfFirstDay dayName student.Schedule).reverse.find?
        (fun x => decide (x.SubjectName = sj.SubjectName) && decide (0 < x.Homeworks.length)) with
    | none =>
      rw [hf] at hget
      simp [Status.empty, HomeworkMap.get?] at hget
    | some sj0 =>
      rw [hf] at hget
      have hp := List.find?_some hf
      have hm := List.mem_of_find?_eq_some hf
      simp only [Bool.and_eq_true, decide_eq_true_eq] at hp
      simp only [Option.some.injEq] at hget
      rw [← hget]
      exact hsub sj0 (by simpa using hm) sj hsj hp.1

/-- C19 at a concrete reachable store: the store in which user `42` saved a
photo for Saturday, whose schedule lists "Русский" twice. -/
theorem Reachable_homonyms_agree_witness :
    (∀ u ∈ saturdayStore, ∀ d ∈ u.Schedule, ∀ sj ∈ d.Subjects, ∀ sj' ∈ d.Subjects,
      sj.SubjectName = sj'.SubjectName → sj.Homeworks = sj'.Homeworks) ∧
    (∀ (studentUsername dayName : String) (student : User),
      findOne (byUsername (TrimPrefix studentUsername "@")) saturdayStore = some student →
      ∃ st, GetHomeworkStatus saturdayStore studentUsername dayName = Except.ok st ∧
        (∀ n, n ∈ st.completed → n ∉ st.incomplete) ∧
        (∀ sj ∈ subjectsOfFirstDay dayName student.Schedule, ∀ hs,
          st.homeworkMap.get? sj.SubjectName = some hs → hs = sj.Homeworks)) :=
  Reachable_homonyms_agree literalRegexI saturdayStore
    (Reachable.saveHomework 100 100 aliceStore "42" "Saturday" "Русский" [1, 2, 3]
      (Reachable.initializeSchedule _ "42"
        (Reachable.createUser 0 [] "42" "alice" Reachable.empty)))

end Mongo

/-! ## The caption cache and the handling of photos -/

namespace Handlers

open Mongo

theorem lookup_assign (m : List (String × String)) (k v k' : String) :
    lookup (assign m k v) k' = if k = k' then v else lookup m k' := by
  induction m with
  | nil => simp [assign, lookup]
  | cons a t ih =>
    obtain ⟨k0, v0⟩ := a
    by_cases h0 : k0 = k
    · subst h0
      by_cases h1 : k0 = k'
      · simp [assign, lookup, h1]
      · simp [assign, lookup, h1]
    · by_cases h1 : k0 = k'
      · subst h1
        have h2 : ¬ k = k0 := fun h => h0 h.symm
        simp [assign, lookup, h0, h2]
      · simp [assign, lookup, h0, h1, ih]

theorem cleanupMediaGroups_of_recent {now : Int} {h : Handler}
    (hr : now - h.lastCleanup < Hour) : cleanupMediaGroups now h = h := by
  simp [cleanupMediaGroups, hr]

theorem ensureUserInitialized_ok (createFaults initFaults : Faults) (now : Int) (s : Store)
    (userID username : String) (h : initFaults.update = false) :
    (ensureUserInitialized createFaults initFaults now s userID username).1 = none := by
  rw [ensureUserInitialized_eq]
  exact InitializeScheduleWith_ok _ _ _ h

theorem prepared_mediaGroups (env : Env) (h : Handler) (m : Message) :
    (prepared env h m).mediaGroups = (cleanupMediaGroups env.now h).mediaGroups := rfl

theorem prepared_lastCleanup (env : Env) (h : Handler) (m : Message) :
    (prepared env h m).lastCleanup = (cleanupMediaGroups env.now h).lastCleanup := rfl

theorem rememberCaption_lastCleanup (h : Handler) (m : Message) :
    (rememberCaption h m).lastCleanup = h.lastCleanup := by
  unfold rememberCaption
  split <;> rfl

theorem rememberCaption_db (h : Handler) (m : Message) :
    (rememberCaption h m).db = h.db := by
  unfold rememberCaption
  split <;> rfl

theorem rememberCaption_of_no_caption (h : Handler) (m : Message) (hc : m.Caption = "") :
    rememberCaption h m = h := by
  simp [rememberCaption, hc]

/-- The cache entry of a group is touched only by a captioned message of
that group. -/
theorem rememberCaption_lookup (h : Handler) (m : Message) (G : String) :
    lookup (rememberCaption h m).mediaGroups G
      = if m.MediaGroupID = G ∧ m.MediaGroupID ≠ "" ∧ m.Caption ≠ "" then m.Caption
        else lookup h.mediaGroups G := by
  unfold rememberCaption
  by_cases h1 : m.MediaGroupID ≠ "" ∧ m.Caption ≠ ""
  · by_cases h2 : m.MediaGroupID = G
    · have h3 : m.MediaGroupID = G ∧ m.MediaGroupID ≠ "" ∧ m.Caption ≠ "" := ⟨h2, h1⟩
      rw [if_pos h1, if_pos h3, lookup_assign, if_pos h2]
    · have h3 : ¬ (m.MediaGroupID = G ∧ m.MediaGroupID ≠ "" ∧ m.Caption ≠ "") :=
        fun hh => h2 hh.1
      rw [if_pos h1, if_neg h3, lookup_assign, if_neg h2]
  · have h3 : ¬ (m.MediaGroupID = G ∧ m.MediaGroupID ≠ "" ∧ m.Caption ≠ "") :=
      fun hh => h1 hh.2
    rw [if_neg h1, if_neg h3]

/-- `recordPhoto` leaves the cache and the cleanup time as they are. -/
theorem recordPhoto_handler (env : Env) (h : Handler) (m : Message) (userID caption : String) :
    (recordPhoto env h m userID caption).handler.mediaGroups = h.mediaGroups ∧
    (recordPhoto env h m userID caption).handler.lastCleanup = h.lastCleanup := by
  simp only [recordPhoto]
  split
  · exact ⟨rfl, rfl⟩
  · split
    · exact ⟨rfl, rfl⟩
    · split <;> exact ⟨rfl, rfl⟩

/-- The replies of `recordPhoto`: never the request for a caption; the
"processing" notice exactly under the acknowledgement condition; the "saved"
confirmation exactly when, in addition, the save returned an identifier. -/
theorem recordPhoto_replies (env : Env) (h : Handler) (m : Message) (userID caption : String) :
    Reply.addCaption ∉ (recordPhoto env h m userID caption).replies ∧
    (Reply.processing (getNextDayName env.now) (env.title caption)
        ∈ (recordPhoto env h m userID caption).replies ↔ acknowledges m = true) ∧
    (Reply.saved (getNextDayName env.now) (env.title caption)
        ∈ (recordPhoto env h m userID caption).replies ↔
      acknowledges m = true ∧
        ∃ call id, (recordPhoto env h m userID caption).save = some call ∧
          call.id = some id) := by
  simp only [recordPhoto]
  split
  · by_cases ha : acknowledges m = true <;> by_cases hm : m.MediaGroupID = "" <;>
      simp [ha, hm]
  · split
    · by_cases ha : acknowledges m = true <;> by_cases hm : m.MediaGroupID = "" <;>
        simp [ha, hm]
    · split
      · by_cases ha : acknowledges m = true <;> by_cases hm : m.MediaGroupID = "" <;>
          simp [ha, hm]
      · by_cases ha : acknowledges m = true <;> by_cases hm : m.MediaGroupID = "" <;>
          simp [ha, hm]

/-- Once the transport has delivered the photo, `recordPhoto` calls
`SaveHomework` for the next day under the title-cased caption, and the
store it leaves is the store of that call. -/
theorem recordPhoto_save (env : Env) (h : Handler) (m : Message) (userID caption : String)
    (link : String) (bytes : List UInt8)
    (hg : env.getFile (m.Photo.getLastD "") = some link) (hd : env.download link = some bytes) :
    (recordPhoto env h m userID caption).save
        = some { userID := userID, dayName := getNextDayName env.now,
                 subjectName := env.title caption, photoData := bytes,
                 id := (SaveHomework env.rx (Unix (env.now - env.zoneOffset))
                   (Unix (env.now - env.zoneOffset)) h.db userID (getNextDayName env.now)
                   (env.title caption) bytes).1.toOption } ∧
      (recordPhoto env h m userID caption).handler.db
        = (SaveHomework env.rx (Unix (env.now - env.zoneOffset))
            (Unix (env.now - env.zoneOffset)) h.db userID (getNextDayName env.now)
            (env.title caption) bytes).2 := by
  simp only [recordPhoto, hg, hd]
  split
  · rename_i heq
    rw [heq]
    exact ⟨rfl, rfl⟩
  · rename_i heq
    rw [heq]
    exact ⟨rfl, rfl⟩

/-- `HandleMessage` on a photo, the schedule initialisation not failing:
the message is rejected when no caption is resolved and recorded otherwise. -/
theorem HandleMessage_photo (env : Env) (h : Handler) (m : Message)
    (hinit : env.initFaults.update = false) (hphoto : m.Photo ≠ []) :
    HandleMessage env h m
      = if resolveCaption (prepared env h m) m = "" then
          { handler := rememberCaption (prepared env h m) m, replies := [Reply.addCaption],
            save := none }
        else
          recordPhoto env (rememberCaption (prepared env h m) m) m (toString m.FromID)
            (resolveCaption (prepared env h m) m) := by
  have h0 := ensureUserInitialized_ok env.createFaults env.initFaults
    (Unix (env.now - env.zoneOffset)) (cleanupMediaGroups env.now h).db
    (toString m.FromID) m.UserName hinit
  simp only [HandleMessage, h0, hphoto, Option.isSome_none, Bool.false_eq_true, if_false]
  rfl

theorem HandleMessage_lastCleanup (env : Env) (h : Handler) (m : Message) :
    (HandleMessage env h m).handler.lastCleanup = (cleanupMediaGroups env.now h).lastCleanup := by
  simp only [HandleMessage]
  split
  · rfl
  · split
    · rfl
    · split
      · rw [rememberCaption_lastCleanup]
      · rw [(recordPhoto_handler _ _ _ _ _).2, rememberCaption_lastCleanup]

/-- A message that is not a captioned message of group `G` leaves the cache
entry of `G` as the cleanup left it. -/
theorem HandleMessage_lookup (env : Env) (h : Handler) (m : Message) (G : String)
    (hm : ¬ (m.MediaGroupID = G ∧ m.Caption ≠ "")) :
    lookup (HandleMessage env h m).handler.mediaGroups G
      = lookup (cleanupMediaGroups env.now h).mediaGroups G := by
  have hr : ¬ (m.MediaGroupID = G ∧ m.MediaGroupID ≠ "" ∧ m.Caption ≠ "") :=
    fun hh => hm ⟨hh.1, hh.2.2⟩
  simp only [HandleMessage]
  split
  · rfl
  · split
    · rfl
    · split
      · rw [rememberCaption_lookup, if_neg hr]
      · rw [(recordPhoto_handler _ _ _ _ _).1, rememberCaption_lookup, if_neg hr]

/-- Messages among which none is a captioned message of group `G`, handled
while no cleanup falls due, leave the cache entry of `G` untouched. -/
theorem runState_lookup (G : String) : ∀ (evs : List (Env × Message)) (h : Handler),
    (∀ e ∈ evs, ¬ (e.2.MediaGroupID = G ∧ e.2.Caption ≠ "")) →
    (∀ e ∈ evs, e.1.now - h.lastCleanup < Hour) →
    lookup (runState h evs).mediaGroups G = lookup h.mediaGroups G ∧
      (runState h evs).lastCleanup = h.lastCleanup := by
  intro evs
  induction evs with
  | nil => intro h _ _; exact ⟨rfl, rfl⟩
  | cons e rest ih =>
    intro h hcap hrecent
    obtain ⟨env, m⟩ := e
    have hr : env.now - h.lastCleanup < Hour := hrecent (env, m) (by simp)
    have hl : (HandleMessage env h m).handler.lastCleanup = h.lastCleanup := by
      rw [HandleMessage_lastCleanup, cleanupMediaGroups_of_recent hr]
    have hk : lookup (HandleMessage env h m).handler.mediaGroups G = lookup h.mediaGroups G := by
      rw [HandleMessage_lookup env h m G (hcap (env, m) (by simp)),
        cleanupMediaGroups_of_recent hr]
    obtain ⟨h1, h2⟩ := ih (HandleMessage env h m).handler
      (fun e he => hcap e (by simp [he]))
      (fun e he => by rw [hl]; exact hrecent e (by simp [he]))
    exact ⟨by simp only [runState]; rw [h1, hk], by simp only [runState]; rw [h2, hl]⟩

/-- A grouped message without a caption of its own, handled while no cleanup
falls due and the cache holds `c` for its group, is recorded under `c`. -/
theorem HandleMessage_cached (env : Env) (h : Handler) (m : Message) (c : String)
    (hinit : env.initFaults.update = false) (hphoto : m.Photo ≠ [])
    (hgroup : m.MediaGroupID ≠ "") (hcap : m.Caption = "")
    (hrecent : env.now - h.lastCleanup < Hour)
    (hcache : lookup h.mediaGroups m.MediaGroupID = c) (hc : c ≠ "") :
    resolveCaption (prepared env h m) m = c ∧
      HandleMessage env h m = recordPhoto env (prepared env h m) m (toString m.FromID) c := by
  have hres : resolveCaption (prepared env h m) m = c := by
    simp only [resolveCaption, hcap, hgroup, ne_eq, not_false_eq_true, and_self, if_true,
      prepared_mediaGroups, cleanupMediaGroups_of_recent hrecent, hcache]
  refine ⟨hres, ?_⟩
  rw [HandleMessage_photo env h m hinit hphoto, hres, if_neg hc,
    rememberCaption_of_no_caption _ _ hcap]

/-- A message with a caption of its own is recorded under that caption, and
if it belongs to a group the cache then holds the caption for the group. -/
theorem HandleMessage_captioned (env : Env) (h : Handler) (m : Message)
    (hinit : env.initFaults.update = false) (hphoto : m.Photo ≠ []) (hcap : m.Caption ≠ "") :
    HandleMessage env h m
        = recordPhoto env (rememberCaption (prepared env h m) m) m (toString m.FromID)
            m.Caption ∧
      (m.MediaGroupID ≠ "" →
        lookup (HandleMessage env h m).handler.mediaGroups m.MediaGroupID = m.Caption) := by
  have hres : resolveCaption (prepared env h m) m = m.Caption := by
    simp [resolveCaption, hcap]
  have heq : HandleMessage env h m
      = recordPhoto env (rememberCaption (prepared env h m) m) m (toString m.FromID)
          m.Caption := by
    rw [HandleMessage_photo env h m hinit hphoto, hres, if_neg hcap]
  refine ⟨heq, ?_⟩
  intro hgroup
  rw [heq, (recordPhoto_handler _ _ _ _ _).1, rememberCaption_lookup,
    if_pos ⟨rfl, hgroup, hcap⟩]

/-- A message without a caption of its own that belongs to no group, or to a
group the cleaned cache has no entry for, is rejected. -/
theorem HandleMessage_unresolved (env : Env) (h : Handler) (m : Message)
    (hinit : env.initFaults.update = false) (hphoto : m.Photo ≠ []) (hcap : m.Caption = "")
    (hnone : m.MediaGroupID = "" ∨
      lookup (cleanupMediaGroups env.now h).mediaGroups m.MediaGroupID = "") :
    resolveCaption (prepared env h m) m = "" ∧
      HandleMessage env h m
        = { handler := prepared env h m, replies := [Reply.addCaption], save := none } := by
  have hres : resolveCaption (prepared env h m) m = "" := by
    unfold resolveCaption
    split
    · rcases hnone with hg | hl
      · rename_i hcond
        exact absurd hg hcond.2
      · rw [prepared_mediaGroups]
        exact hl
    · exact hcap
  refine ⟨hres, ?_⟩
  rw [HandleMessage_photo env h m hinit hphoto, hres, if_pos rfl,
    rememberCaption_of_no_caption _ _ hcap]

theorem cleanupMediaGroups_lookup_empty (now : Int) (h : Handler) (G : String)
    (hl : lookup h.mediaGroups G = "") :
    lookup (cleanupMediaGroups now h).mediaGroups G = "" := by
  unfold cleanupMediaGroups
  split
  · exact hl
  · rfl

theorem HandleMessages_append : ∀ (a b : List (Env × Message)) (h : Handler),
    HandleMessages h (a ++ b) = HandleMessages h a ++ HandleMessages (runState h a) b := by
  intro a
  induction a with
  | nil => intro b h; rfl
  | cons e rest ih =>
    intro b h
    obtain ⟨env, m⟩ := e
    show HandleMessage env h m :: HandleMessages (HandleMessage env h m).handler (rest ++ b) = _
    rw [ih]
    rfl

/-- Photos of group `G` without a caption, handled while the cache has no
entry for `G`, are each asked for a caption and not saved. -/
theorem album_before (G : String) : ∀ (pre : List (Env × Message)) (h : Handler),
    lookup h.mediaGroups G = "" →
    (∀ e ∈ pre, e.2.MediaGroupID = G ∧ e.2.Photo ≠ [] ∧ e.1.initFaults.update = false ∧
      e.1.now - h.lastCleanup < Hour ∧ e.2.Caption = "") →
    List.Forall₂ (fun _ o => o.replies = [Reply.addCaption] ∧ o.save = none) pre
      (HandleMessages h pre) := by
  intro pre
  induction pre with
  | nil => intro h _ _; exact List.Forall₂.nil
  | cons e rest ih =>
    intro h hcache hall
    obtain ⟨env, m⟩ := e
    obtain ⟨hg, hp, hi, hr, hc⟩ := hall (env, m) (by simp)
    simp only at hg hp hi hr hc
    have hnone : m.MediaGroupID = "" ∨
        lookup (cleanupMediaGroups env.now h).mediaGroups m.MediaGroupID = "" := by
      rw [hg]
      exact Or.inr (cleanupMediaGroups_lookup_empty _ _ _ hcache)
    have heq := (HandleMessage_unresolved env h m hi hp hc hnone).2
    have hl : (HandleMessage env h m).handler.lastCleanup = h.lastCleanup := by
      rw [HandleMessage_lastCleanup, cleanupMediaGroups_of_recent hr]
    have hk : lookup (HandleMessage env h m).handler.mediaGroups G = "" := by
      rw [HandleMessage_lookup env h m G (fun hh => hh.2 hc), cleanupMediaGroups_of_recent hr]
      exact hcache
    simp only [HandleMessages]
    refine List.Forall₂.cons ⟨by rw [heq], by rw [heq]⟩ (ih _ hk ?_)
    intro e he
    rw [hl]
    exact hall e (by simp [he])

/-- Photos of group `G` without a caption, handled while the cache holds `c`
for `G`, are each recorded under `c`. -/
theorem album_after (G c : String) (hG : G ≠ "") (hc : c ≠ "") :
    ∀ (post : List (Env × Message)) (h : Handler),
    lookup h.mediaGroups G = c →
    (∀ e ∈ post, e.2.MediaGroupID = G ∧ e.2.Photo ≠ [] ∧ e.1.initFaults.update = false ∧
      e.1.now - h.lastCleanup < Hour ∧ e.2.Caption = "") →
    List.Forall₂
      (fun e o => Reply.addCaption ∉ o.replies ∧
        ∀ link bytes, e.1.getFile (e.2.Photo.getLastD "") = some link →
          e.1.download link = some bytes →
          ∃ id, o.save = some { userID := toString e.2.FromID,
                                dayName := getNextDayName e.1.now,
                                subjectName := e.1.title c, photoData := bytes, id := id })
      post (HandleMessages h post) := by
  intro post
  induction post with
  | nil => intro h _ _; exact List.Forall₂.nil
  | cons e rest ih =>
    intro h hcache hall
    obtain ⟨env, m⟩ := e
    obtain ⟨hg, hp, hi, hr, hcap⟩ := hall (env, m) (by simp)
    simp only at hg hp hi hr hcap
    have heq := (HandleMessage_cached env h m c hi hp (by rw [hg]; exact hG) hcap hr
      (by rw [hg]; exact hcache) hc).2
    have hl : (HandleMessage env h m).handler.lastCleanup = h.lastCleanup := by
      rw [HandleMessage_lastCleanup, cleanupMediaGroups_of_recent hr]
    have hk : lookup (HandleMessage env h m).handler.mediaGroups G = c := by
      rw [HandleMessage_lookup env h m G (fun hh => hh.2 hcap), cleanupMediaGroups_of_recent hr]
      exact hcache
    simp only [HandleMessages]
    refine List.Forall₂.cons ⟨?_, ?_⟩ (ih _ hk ?_)
    · rw [heq]
      exact (recordPhoto_replies _ _ _ _ _).1
    · intro link bytes hgf hdl
      rw [heq]
      exact ⟨_, (recordPhoto_save _ _ _ _ _ link bytes hgf hdl).1⟩
    · intro e he
      rw [hl]
      exact hall e (by simp [he])

/-- C11, amended. An album of photos of one group `G`, handled in order
from a cache without an entry for `G`, with exactly one photo captioned, no
schedule initialisation failing and no cache cleanup falling due: every
photo handled before the captioned one is asked for a caption and no
`SaveHomework` call is made for it; the captioned photo and every photo
handled after it are not asked for a caption and, once the transport
delivers them, are passed to `SaveHomework` for the next day under the
subject of the caption. -/
theorem album_captioned_once (h : Handler) (pre post : List (Env × Message))
    (ec : Env × Message) (G c : String) (hG : G ≠ "") (hc : c ≠ "")
    (hcache : lookup h.mediaGroups G = "")
    (hall : ∀ e ∈ pre ++ ec :: post, e.2.MediaGroupID = G ∧ e.2.Photo ≠ [] ∧
      e.1.initFaults.update = false ∧ e.1.now - h.lastCleanup < Hour)
    (hpre : ∀ e ∈ pre, e.2.Caption = "") (hec : ec.2.Caption = c)
    (hpost : ∀ e ∈ post, e.2.Caption = "") :
    ∃ outsPre outsRest, HandleMessages h (pre ++ ec :: post) = outsPre ++ outsRest ∧
      List.Forall₂ (fun _ o => o.replies = [Reply.addCaption] ∧ o.save = none) pre outsPre ∧
      List.Forall₂
        (fun e o => Reply.addCaption ∉ o.replies ∧
          ∀ link bytes, e.1.getFile (e.2.Photo.getLastD "") = some link →
            e.1.download link = some bytes →
            ∃ id, o.save = some { userID := toString e.2.FromID,
                                  dayName := getNextDayName e.1.now,
                                  subjectName := e.1.title c, photoData := bytes, id := id })
        (ec :: post) outsRest := by
  obtain ⟨envc, mc⟩ := ec
  simp only at hec
  have hpre' : ∀ e ∈ pre, e.2.MediaGroupID = G ∧ e.2.Photo ≠ [] ∧
      e.1.initFaults.update = false ∧ e.1.now - h.lastCleanup < Hour ∧ e.2.Caption = "" := by
    intro e he
    obtain ⟨h1, h2, h3, h4⟩ := hall e (by simp [he])
    exact ⟨h1, h2, h3, h4, hpre e he⟩
  obtain ⟨_, hl⟩ := runState_lookup G pre h (fun e he hh => hh.2 (hpre e he))
    (fun e he => (hall e (by simp [he])).2.2.2)
  obtain ⟨hcg, hcp, hci, hcr⟩ := hall (envc, mc) (by simp)
  simp only at hcg hcp hci hcr
  have hcapne : mc.Caption ≠ "" := by rw [hec]; exact hc
  obtain ⟨heq, hstore⟩ := HandleMessage_captioned envc (runState h pre) mc hci hcp hcapne
  have hstored : lookup (HandleMessage envc (runState h pre) mc).handler.mediaGroups G = c := by
    have := hstore (by rw [hcg]; exact hG)
    rw [hcg, hec] at this
    exact this
  have hlast : (HandleMessage envc (runState h pre) mc).handler.lastCleanup = h.lastCleanup := by
    rw [HandleMessage_lastCleanup, cleanupMediaGroups_of_recent (by rw [hl]; exact hcr), hl]
  refine ⟨HandleMessages h pre, HandleMessages (runState h pre) ((envc, mc) :: post),
    HandleMessages_append _ _ _, album_before G pre h hcache hpre', ?_⟩
  simp only [HandleMessages]
  refine List.Forall₂.cons ⟨?_, ?_⟩ (album_after G c hG hc post _ hstored ?_)
  · rw [heq]
    exact (recordPhoto_replies _ _ _ _ _).1
  · intro link bytes hgf hdl
    rw [heq, hec]
    exact ⟨_, (recordPhoto_save _ _ _ _ _ link bytes hgf hdl).1⟩
  · intro e he
    obtain ⟨h1, h2, h3, h4⟩ := hall e (by simp [he])
    rw [hlast]
    exact ⟨h1, h2, h3, h4, hpost e he⟩

/-- C11, amended, at the album of the specification: photos 1, 2, 3 of group
`G`, the second captioned "Математика". -/
theorem album_captioned_once_witness :
    ∃ outsPre outsRest, HandleMessages handler0
        ([(albumEnv, photo "p1" "" "G")] ++
          (albumEnv, photo "p2" "Математика" "G") :: [(albumEnv, photo "p3" "" "G")])
        = outsPre ++ outsRest ∧
      List.Forall₂ (fun _ o => o.replies = [Reply.addCaption] ∧ o.save = none)
        [(albumEnv, photo "p1" "" "G")] outsPre ∧
      List.Forall₂
        (fun e o => Reply.addCaption ∉ o.replies ∧
          ∀ link bytes, e.1.getFile (e.2.Photo.getLastD "") = some link →
            e.1.download link = some bytes →
            ∃ id, o.save = some { userID := toString e.2.FromID,
                                  dayName := getNextDayName e.1.now,
                                  subjectName := e.1.title "Математика", photoData := bytes,
                                  id := id })
        ((albumEnv, photo "p2" "Математика" "G") :: [(albumEnv, photo "p3" "" "G")]) outsRest :=
  album_captioned_once handler0 [(albumEnv, photo "p1" "" "G")] [(albumEnv, photo "p3" "" "G")]
    (albumEnv, photo "p2" "Математика" "G") "G" "Математика" (by decide) (by decide) (by rfl)
    (by
      intro e he
      simp only [List.cons_append, List.nil_append, List.mem_cons, List.mem_singleton,
        List.not_mem_nil, or_false] at he
      rcases he with rfl | rfl | rfl <;> decide)
    (by
      intro e he
      rw [List.mem_singleton] at he
      rw [he]
      rfl)
    (by rfl)
    (by
      intro e he
      rw [List.mem_singleton] at he
      rw [he]
      rfl)

/-- C11, refuted as stated, on the album of the specification (photos 1, 2,
3 of group `G`, the second captioned "Математика", a schedule whose Monday
lists that subject): photo 1 is asked for a caption, photo 2 is
acknowledged and saved, and photo 3, handled after the caption was cached,
is not rejected but saved as well, without acknowledgement.  Two
Submissions are recorded, the photos 2 and 3. -/
theorem album_third_photo_recorded :
    (HandleMessages handler0 album).map (fun o => o.replies)
        = [[Reply.addCaption],
           [Reply.processing "Monday" "Математика", Reply.saved "Monday" "Математика"], []] ∧
      (HandleMessages handler0 album).map
          (fun o => o.save.map (fun call => (call.subjectName, call.photoData, call.id)))
        = [none, some ("Математика", [2], some "42-Monday-Математика-302400"),
           some ("Математика", [3], some "42-Monday-Математика-302400")] ∧
      (allHomeworks (runState handler0 album).db).map (fun hw => hw.Photo) = [[2], [3]] := by
  decide

/-! ## Acknowledgements -/

/-- A group none of whose messages has been handled has no cache entry. -/
theorem runState_lookup_fresh (G : String) : ∀ (evs : List (Env × Message)) (h : Handler),
    lookup h.mediaGroups G = "" → (∀ e ∈ evs, e.2.MediaGroupID ≠ G) →
    lookup (runState h evs).mediaGroups G = "" := by
  intro evs
  induction evs with
  | nil => intro h hl _; exact hl
  | cons e rest ih =>
    intro h hl hne
    obtain ⟨env, m⟩ := e
    have hm : m.MediaGroupID ≠ G := hne (env, m) (by simp)
    have hk : lookup (HandleMessage env h m).handler.mediaGroups G = "" := by
      rw [HandleMessage_lookup env h m G (fun hh => hm hh.1)]
      exact cleanupMediaGroups_lookup_empty _ _ _ hl
    exact ih _ hk (fun e he => hne e (by simp [he]))

/-- C14, amended. For a photo whose caption is resolved, handled by a
handler that started with an empty cache, the schedule initialisation not
failing: the "processing" notice is sent if and only if the photo belongs
to no group, or is the first message of its group to be handled, or carries
its own caption (a first message of a group with a resolved caption always
carries its own); the "saved" confirmation is sent if and only if, in
addition, the `SaveHomework` call was made and returned an identifier. -/
theorem acknowledgement_rule (now0 : Int) (db : Store) (evs : List (Env × Message))
    (env : Env) (m : Message)
    (hinit : env.initFaults.update = false) (hphoto : m.Photo ≠ [])
    (hres : resolveCaption (prepared env (runState (NewHandler now0 db) evs) m) m ≠ "") :
    (Reply.processing (getNextDayName env.now)
          (env.title (resolveCaption (prepared env (runState (NewHandler now0 db) evs) m) m))
        ∈ (HandleMessage env (runState (NewHandler now0 db) evs) m).replies ↔
      (m.MediaGroupID = "" ∨ (∀ e ∈ evs, e.2.MediaGroupID ≠ m.MediaGroupID) ∨
        m.Caption ≠ "")) ∧
    (Reply.saved (getNextDayName env.now)
          (env.title (resolveCaption (prepared env (runState (NewHandler now0 db) evs) m) m))
        ∈ (HandleMessage env (runState (NewHandler now0 db) evs) m).replies ↔
      (m.MediaGroupID = "" ∨ (∀ e ∈ evs, e.2.MediaGroupID ≠ m.MediaGroupID) ∨
          m.Caption ≠ "") ∧
        ∃ call id, (HandleMessage env (runState (NewHandler now0 db) evs) m).save = some call ∧
          call.id = some id) := by
  have hcond : (m.MediaGroupID = "" ∨ (∀ e ∈ evs, e.2.MediaGroupID ≠ m.MediaGroupID) ∨
      m.Caption ≠ "") ↔ acknowledges m = true := by
    simp only [acknowledges, decide_eq_true_eq]
    constructor
    · rintro (hg | hfirst | hcap)
      · exact Or.inl hg
      · by_cases hg : m.MediaGroupID = ""
        · exact Or.inl hg
        · by_cases hcap : m.Caption = ""
          · exfalso
            apply hres
            have hfresh := runState_lookup_fresh m.MediaGroupID evs (NewHandler now0 db) rfl hfirst
            simp only [resolveCaption, hcap, hg, ne_eq, not_false_eq_true, and_self, if_true,
              prepared_mediaGroups]
            exact cleanupMediaGroups_lookup_empty _ _ _ hfresh
          · exact Or.inr hcap
      · exact Or.inr hcap
    · rintro (hg | hcap)
      · exact Or.inl hg
      · exact Or.inr (Or.inr hcap)
  rw [HandleMessage_photo env _ m hinit hphoto, if_neg hres, hcond]
  exact ⟨(recordPhoto_replies _ _ _ _ _).2.1, (recordPhoto_replies _ _ _ _ _).2.2⟩

/-- C14, amended, at the captioned photo of the album of the specification,
handled after photo 1: it is acknowledged twice. -/
theorem acknowledgement_rule_witness :
    (Reply.processing (getNextDayName albumEnv.now)
          (albumEnv.title (resolveCaption
            (prepared albumEnv (runState (NewHandler sundayNoon mathStore)
              [(albumEnv, photo "p1" "" "G")]) (photo "p2" "Математика" "G"))
            (photo "p2" "Математика" "G")))
        ∈ (HandleMessage albumEnv (runState (NewHandler sundayNoon mathStore)
            [(albumEnv, photo "p1" "" "G")]) (photo "p2" "Математика" "G")).replies ↔
      ((photo "p2" "Математика" "G").MediaGroupID = "" ∨
        (∀ e ∈ [(albumEnv, photo "p1" "" "G")],
          e.2.MediaGroupID ≠ (photo "p2" "Математика" "G").MediaGroupID) ∨
        (photo "p2" "Математика" "G").Caption ≠ "")) ∧
    (Reply.saved (getNextDayName albumEnv.now)
          (albumEnv.title (resolveCaption
            (prepared albumEnv (runState (NewHandler sundayNoon mathStore)
              [(albumEnv, photo "p1" "" "G")]) (photo "p2" "Математика" "G"))
            (photo "p2" "Математика" "G")))
        ∈ (HandleMessage albumEnv (runState (NewHandler sundayNoon mathStore)
            [(albumEnv, photo "p1" "" "G")]) (photo "p2" "Математика" "G")).replies ↔
      ((photo "p2" "Математика" "G").MediaGroupID = "" ∨
          (∀ e ∈ [(albumEnv, photo "p1" "" "G")],
            e.2.MediaGroupID ≠ (photo "p2" "Математика" "G").MediaGroupID) ∨
          (photo "p2" "Математика" "G").Caption ≠ "") ∧
        ∃ call id, (HandleMessage albumEnv (runState (NewHandler sundayNoon mathStore)
            [(albumEnv, photo "p1" "" "G")]) (photo "p2" "Математика" "G")).save = some call ∧
          call.id = some id) :=
  acknowledgement_rule sundayNoon mathStore [(albumEnv, photo "p1" "" "G")] albumEnv
    (photo "p2" "Математика" "G") (by rfl) (by decide) (by decide)

/-- C14, refuted as stated.  A photo that belongs to no group, captioned
"Химия" (no subject of the user's Monday): the "processing" notice is sent,
the save fails, and the reply is the failure note, not the "saved"
confirmation.  The same photo as a captioned member of group `G` gets the
notice and nothing else. -/
theorem confirmation_needs_a_successful_save :
    (HandleMessage albumEnv handler0 (photo "p1" "Химия" "")).replies
        = [Reply.processing "Monday" "Химия", Reply.saveError] ∧
      (HandleMessage albumEnv handler0 (photo "p1" "Химия" "G")).replies
        = [Reply.processing "Monday" "Химия"] := by
  decide

end Handlers

/-! ## Store calls that fail -/

namespace Mongo

theorem CreateUserWith_noFaults (now : Int) (s : Store) (userID username : String) :
    CreateUserWith noFaults now s userID username = CreateUser now s userID username := by
  simp [CreateUserWith, CreateUser, noFaults]

theorem InitializeScheduleWith_noFaults (s : Store) (userID : String) :
    InitializeScheduleWith noFaults s userID = InitializeSchedule s userID := by
  simp only [InitializeScheduleWith, InitializeSchedule, noFaults, Bool.false_eq_true, if_false]

/-- When the lookup of `InitializeSchedule` fails and its update does not,
the call returns no error and the record of the user gets the template as
its schedule, whatever schedule and Submissions it held. -/
theorem InitializeScheduleWith_lookup_failure (s : Store) (userID : String) (u : User)
    (hu : findOne (byUserID userID) s = some u) :
    ∃ pre post, s = pre ++ u :: post ∧ (∀ x ∈ pre, x.UserID ≠ userID) ∧
      InitializeScheduleWith { find := true, update := false, insert := false } s userID
        = (none, pre ++ { u with Schedule := schedules } :: post) := by
  obtain ⟨pre, post, h1, h2, _, h4⟩ := updateOne_of_findOne_some setSchedule hu
  refine ⟨pre, post, h1, ?_, ?_⟩
  · intro x hx
    simpa [byUserID] using h2 x hx
  · simp [InitializeScheduleWith, upsertOne, h4, setSchedule]

/-- The lookup failure at a concrete store: the photo user `42` saved for
Saturday is gone after the call. -/
theorem InitializeScheduleWith_lookup_failure_witness :
    (∃ pre post, saturdayStore = pre ++
        ({ UserID := "42", Username := "alice", CreatedAt := 0, UserContacts := none,
           IsParent := false,
           Schedule := (pushHomework (fun name =>
               occursIn ("Русский".data.map foldCase) (name.data.map foldCase)) "Saturday"
             { Photo := [1, 2, 3], UploadedAt := 100, ID := "42-Saturday-Русский-100",
               UploadedBy := "42" }
             { UserID := "42", Username := "alice", CreatedAt := 0, UserContacts := none,
               IsParent := false, Schedule := schedules }).Schedule } : User) :: post ∧
      (∀ x ∈ pre, x.UserID ≠ "42") ∧
      InitializeScheduleWith { find := true, update := false, insert := false } saturdayStore
          "42"
        = (none, pre ++
            ({ UserID := "42", Username := "alice", CreatedAt := 0, UserContacts := none,
               IsParent := false, Schedule := schedules } : User) :: post)) ∧
    (allHomeworks saturdayStore).length = 2 ∧
    (allHomeworks (InitializeScheduleWith { find := true, update := false, insert := false }
      saturdayStore "42").2).length = 0 :=
  ⟨InitializeScheduleWith_lookup_failure saturdayStore "42" _ (by rfl), by decide, by decide⟩

end Mongo
